import Mathlib

/-
  Verification development for a Connect-Four engine consisting of a game
  class (file connect4.py, class Connect4) and a minimax agent
  (file Agent.py, classes State and Agent).

  The board is a 2D numpy array of ints: 0 = empty, 1 = player one,
  2 = player two.  We embed it as a list of rows, each a list of cells.
  Numpy indexing semantics matter here: an index i into an axis of
  length len is valid iff -len <= i < len, a negative index wraps to
  len + i, and anything else raises IndexError.  We model a read through
  this semantics as an Option-valued access, so an IndexError is `none`.

  The three configuration scalars (n_rows, n_cols, n_to_win) are passed
  explicitly to every function, mirroring the self attributes.
-/

namespace C4

/-- Cells and boards.  A board is a list of n_rows rows of n_cols cells. -/
abbrev Board := List (List Nat)

/-- Python list / 1D numpy indexing: a negative index wraps once, after
which the index must fall inside the list. -/
def pyGet? {α : Type} (l : List α) (i : Int) : Option α :=
  let j : Int := if i < 0 then i + l.length else i
  if j < 0 then none else l.get? j.toNat

/-- Read board[r, c] with numpy semantics (none = IndexError). -/
def bget? (b : Board) (r c : Int) : Option Nat :=
  (pyGet? b r).bind (fun row => pyGet? row c)

/-- Pure cell lookup for in-range nonnegative indices (0 when out of range);
used on the specification side and in bridge lemmas. -/
def cellD (b : Board) (r c : Nat) : Nat :=
  (b.getD r []).getD c 0

/-- Well-formed board of the given dimensions. -/
def Wf (rows cols : Nat) (b : Board) : Prop :=
  b.length = rows ∧ ∀ row ∈ b, row.length = cols

instance (rows cols : Nat) (b : Board) : Decidable (Wf rows cols b) := by
  unfold Wf; infer_instance

/-- Python range(a, b) as a list of Ints (empty when b <= a). -/
def intRange (a b : Int) : List Int :=
  (List.range (b - a).toNat).map (fun (i : Nat) => a + (i : Int))

/-- Python range(a, b, -1) as a list of Ints: a, a-1, ..., b+1. -/
def intRangeDown (a b : Int) : List Int :=
  (List.range (a - b).toNat).map (fun (i : Nat) => a - (i : Int))

/-- Overwrite cell (r, c) of a board (used for the one assignment
self.positions[row, column] = current_player, whose indices are produced
by in-range loops, hence plain Nat indices). -/
def setCell (b : Board) (r c v : Nat) : Board :=
  b.set r ((b.getD r []).set c v)

/-!  ## connect4.py, class Connect4: move validity and win detection  -/

/-- Connect4.is_valid_move (connect4.py lines 52-71) and the identical
Agent.is_valid_move (Agent.py lines 99-119): in bounds, target empty, and
bottom row or supported from below.  The bounds guard runs first, so the
two board reads are in range; the unreachable `none` branches return false. -/
def is_valid_move (rows cols : Nat) (b : Board) (row col : Int) : Bool :=
  if row < 0 ∨ col < 0 ∨ (rows : Int) ≤ row ∨ (cols : Int) ≤ col then false
  else match bget? b row col with
    | none => false
    | some v =>
      if v ≠ 0 then false
      else if row < (rows : Int) - 1 then
        match bget? b (row + 1) col with
        | none => false
        | some w => if w = 0 then false else true
      else true

/-- Loop body of Connect4.is_horizontal_win / is_vertical_win
(connect4.py lines 81-88 and 104-111): walk the given cells, counting
consecutive pieces of `player`, breaking as soon as the count reaches
n_to_win; returns the count at loop exit. -/
def scanLoop (b : Board) (player n : Nat) (cells : List (Int × Int)) (k : Nat) :
    Option Nat :=
  match cells with
  | [] => some k
  | rc :: rest =>
    (bget? b rc.1 rc.2).bind (fun v =>
      if v = player then
        if k + 1 = n then some (k + 1)
        else scanLoop b player n rest (k + 1)
      else scanLoop b player n rest 0)

/-- Connect4.is_horizontal_win (connect4.py lines 73-93): scan the given
row across all columns; report a win iff the final count equals n_to_win. -/
def is_horizontal_win (cols n : Nat) (b : Board) (row : Int) (player : Nat) :
    Option Bool :=
  (scanLoop b player n ((intRange 0 cols).map (fun c => (row, c))) 0).map
    (fun k => k == n)

/-- Connect4.is_vertical_win (connect4.py lines 95-116): scan the given
column down all rows; report a win iff the final count is at least n_to_win. -/
def is_vertical_win (rows n : Nat) (b : Board) (col : Int) (player : Nat) :
    Option Bool :=
  (scanLoop b player n ((intRange 0 rows).map (fun r => (r, col))) 0).map
    (fun k => n ≤ k)

/-- One top-down diagonal test of Connect4.is_diagonal_win (lines 137-139):
board[row, c] == board[row+1, c+1] == board[row+2, c+2] == board[row+3, c+3]
== player, with the left-to-right short-circuit of a Python chained
comparison (later reads do not happen once a comparison fails). -/
def tdCheck (b : Board) (player : Nat) (r c : Int) : Option Bool :=
  (bget? b r c).bind (fun v0 =>
  (bget? b (r + 1) (c + 1)).bind (fun v1 =>
  if v0 ≠ v1 then some false else
  (bget? b (r + 2) (c + 2)).bind (fun v2 =>
  if v1 ≠ v2 then some false else
  (bget? b (r + 3) (c + 3)).bind (fun v3 =>
  some (v2 == v3 && v3 == player)))))

/-- One bottom-up diagonal test of Connect4.is_diagonal_win (lines 144-146). -/
def buCheck (b : Board) (player : Nat) (r c : Int) : Option Bool :=
  (bget? b r c).bind (fun v0 =>
  (bget? b (r - 1) (c + 1)).bind (fun v1 =>
  if v0 ≠ v1 then some false else
  (bget? b (r - 2) (c + 2)).bind (fun v2 =>
  if v1 ≠ v2 then some false else
  (bget? b (r - 3) (c + 3)).bind (fun v3 =>
  some (v2 == v3 && v3 == player)))))

/-- A loop that returns True from inside the function as soon as one test
succeeds, and otherwise falls through. -/
def firstTrue {α : Type} (f : α → Option Bool) : List α → Option Bool
  | [] => some false
  | x :: xs => (f x).bind (fun t => if t then some true else firstTrue f xs)

/-- Anchor list of the top-down part of is_diagonal_win (lines 135-136):
column in range(n_cols - n_to_win + 1) outer, row in
range(n_rows - n_to_win + 1) inner. -/
def tdAnchors (rows cols n : Nat) : List (Int × Int) :=
  (intRange 0 ((cols : Int) - n + 1)).flatMap (fun c =>
    (intRange 0 ((rows : Int) - n + 1)).map (fun r => (r, c)))

/-- Anchor list of the bottom-up part of is_diagonal_win (lines 142-143):
column in range(n_cols - n_to_win + 1) outer, row in
range(n_rows - n_to_win + 1, n_rows) inner.  The lower bound can be
negative, in which case Python iterates from that negative row. -/
def buAnchors (rows cols n : Nat) : List (Int × Int) :=
  (intRange 0 ((cols : Int) - n + 1)).flatMap (fun c =>
    (intRange ((rows : Int) - n + 1) rows).map (fun r => (r, c)))

/-- Connect4.is_diagonal_win (connect4.py lines 118-149).  The cell
offsets +1, +2, +3 are hardcoded in the source (see its warning comment),
while the anchor ranges are computed from n_to_win. -/
def is_diagonal_win (rows cols n : Nat) (b : Board) (player : Nat) :
    Option Bool :=
  (firstTrue (fun rc => tdCheck b player rc.1 rc.2) (tdAnchors rows cols n)).bind
    (fun t =>
      if t then some true
      else firstTrue (fun rc => buCheck b player rc.1 rc.2) (buAnchors rows cols n))

/-- Connect4.is_winning_move (connect4.py lines 151-162): horizontal test
on the given row, or vertical test on the given column, or the
whole-board diagonal test, with Python or-short-circuit. -/
def is_winning_move (rows cols n : Nat) (b : Board) (row col : Int)
    (player : Nat) : Option Bool :=
  (is_horizontal_win cols n b row player).bind (fun h =>
    if h then some true
    else (is_vertical_win rows n b col player).bind (fun v =>
      if v then some true
      else is_diagonal_win rows cols n b player))

/-!  ## Agent.py: streak accounting and the static evaluator  -/

/-- streaks_overall (Agent.py lines 228-233) is a dict with keys 1 and 2,
each holding a dict with keys 0..n_to_win initialized to 0.  We model the
outer dict as a pair and each inner dict as a list of n_to_win + 1
counters indexed by streak size; a lookup of an absent key (an outer key
other than 1 or 2, or a size beyond n_to_win) is a KeyError, i.e. none. -/
abbrev SDict := List Nat × List Nat

/-- streaks_overall[p] (none = KeyError). -/
def sdGet (S : SDict) (p : Nat) : Option (List Nat) :=
  if p = 1 then some S.1 else if p = 2 then some S.2 else none

/-- Write back streaks_overall[p].  Only reached after a successful
sdGet of the same key, so the silent fallthrough branch is unreachable. -/
def sdSet (S : SDict) (p : Nat) (l : List Nat) : SDict :=
  if p = 1 then (l, S.2) else if p = 2 then (S.1, l) else S

/-- streaks_overall[p][size] += 1: read the inner dict, read the counter
(KeyError when size is not a key), and write back the incremented value. -/
def bump (S : SDict) (p size : Nat) : Option SDict :=
  (sdGet S p).bind (fun row =>
    (row.get? size).map (fun v => sdSet S p (row.set size (v + 1))))

/-- current_streak (Agent.py line 236) is the dict {1: _, 2: _}, modelled
as a pair; lookup of any other key is a KeyError. -/
def curGet (c : Nat × Nat) (k : Nat) : Option Nat :=
  if k = 1 then some c.1 else if k = 2 then some c.2 else none

/-- Write current_streak[k].  In the source every write is either at the
literal keys player/opponent or preceded by a read of the same key, so
the silent fallthrough branch is unreachable. -/
def curSet (c : Nat × Nat) (k v : Nat) : Nat × Nat :=
  if k = 1 then (v, c.2) else if k = 2 then (c.1, v) else c

/-- Evaluator state: (streaks_overall, current_streak). -/
abbrev EvalSt := SDict × (Nat × Nat)

/-- Agent.streak_accounting (Agent.py lines 158-190): cap both current
streaks at n_to_win, then split on the three situations described in the
source: an empty cell flushes and resets both streaks, a repeat of the
previous piece extends its streak, and a change of piece flushes the
previous piece (when it was a piece) and starts a streak for the new one. -/
def streak_accounting (n player opponent : Nat) (prev this : Nat)
    (st : EvalSt) : Option EvalSt :=
  (curGet st.2 player).bind (fun cp =>
  let cur := curSet st.2 player (min cp n)
  (curGet cur opponent).bind (fun co =>
  let cur := curSet cur opponent (min co n)
  if this = 0 then
    (curGet cur player).bind (fun fp =>
    (bump st.1 player fp).bind (fun S =>
    (curGet cur opponent).bind (fun fo =>
    (bump S opponent fo).map (fun S =>
    (S, curSet (curSet cur player 0) opponent 0)))))
  else if this = prev then
    (curGet cur this).map (fun ct => (st.1, curSet cur this (ct + 1)))
  else if prev ≠ 0 then
    (curGet cur prev).bind (fun fv =>
    (bump st.1 prev fv).bind (fun S =>
    let cur := curSet cur prev 0
    (curGet cur this).map (fun ct => (S, curSet cur this (ct + 1)))))
  else
    (curGet cur this).map (fun ct => (st.1, curSet cur this (ct + 1)))))

/-- Agent.streak_cleanup (Agent.py lines 192-208): cap, flush both current
streaks, and reset both to zero. -/
def streak_cleanup (n player opponent : Nat) (st : EvalSt) : Option EvalSt :=
  (curGet st.2 player).bind (fun cp =>
  let cur := curSet st.2 player (min cp n)
  (curGet cur opponent).bind (fun co =>
  let cur := curSet cur opponent (min co n)
  (curGet cur player).bind (fun fp =>
  (bump st.1 player fp).bind (fun S =>
  (curGet cur opponent).bind (fun fo =>
  (bump S opponent fo).map (fun S =>
  (S, curSet (curSet cur player 0) opponent 0)))))))

/-- The walk of one scan line after its anchor cell: read each cell, run
streak_accounting against the previous cell, and carry the cell as prev. -/
def walkFold (b : Board) (n player opponent : Nat) :
    List (Int × Int) → Nat → EvalSt → Option EvalSt
  | [], _, st => some st
  | rc :: rest, prev, st =>
    (bget? b rc.1 rc.2).bind (fun this =>
      (streak_accounting n player opponent prev this st).bind (fun st' =>
        walkFold b n player opponent rest this st'))

/-- One scan line of Agent.evaluate: read the anchor cell as prev_piece,
extend its streak when it is a piece (current_streak[prev_piece] += 1),
walk the remaining cells of the line, then run streak_cleanup.  This is
the pattern the source repeats for each of its six loop groups (Agent.py
lines 244-350). -/
def lineProc (b : Board) (n player opponent : Nat) (anchor : Int × Int)
    (walk : List (Int × Int)) (st : EvalSt) : Option EvalSt :=
  (bget? b anchor.1 anchor.2).bind (fun prev0 =>
    (if prev0 ≠ 0 then
      (curGet st.2 prev0).map (fun cv => (st.1, curSet st.2 prev0 (cv + 1)))
    else some st).bind (fun st1 =>
    (walkFold b n player opponent walk prev0 st1).bind
      (streak_cleanup n player opponent)))

/-- Cells visited by the while loop of a top-down diagonal anchored on the
left edge (Agent.py lines 283-289): r, c = row+1, 1 stepping +1, +1 while
r < n_rows and c < n_cols. -/
def tdWalk (rows cols : Nat) (row : Int) : List (Int × Int) :=
  (List.range (min ((rows : Int) - (row + 1)) ((cols : Int) - 1)).toNat).map
    (fun (i : Nat) => (row + 1 + (i : Int), 1 + (i : Int)))

/-- Cells visited by the while loop of a top-down diagonal anchored on the
top row (Agent.py lines 302-308): r, c = 1, col+1 stepping +1, +1. -/
def tdTopWalk (rows cols : Nat) (col : Int) : List (Int × Int) :=
  (List.range (min ((rows : Int) - 1) ((cols : Int) - (col + 1))).toNat).map
    (fun (i : Nat) => (1 + (i : Int), col + 1 + (i : Int)))

/-- Cells visited by the while loop of a bottom-up diagonal anchored on the
right edge (Agent.py lines 322-328): r, c = row+1, n_cols-2 stepping +1, -1
while r < n_rows and c > 0. -/
def buWalk (rows cols : Nat) (row : Int) : List (Int × Int) :=
  (List.range (min ((rows : Int) - (row + 1)) ((cols : Int) - 2)).toNat).map
    (fun (i : Nat) => (row + 1 + (i : Int), (cols : Int) - 2 - (i : Int)))

/-- Cells visited by the while loop of a bottom-up diagonal anchored on the
top row (Agent.py lines 341-347): r, c = 1, col-1 stepping +1, -1 while
r < n_rows and c > 0.  The condition c > 0 stops the walk one cell early,
so the cell of the diagonal lying in column 0 is never visited. -/
def buTopWalk (rows : Nat) (col : Int) : List (Int × Int) :=
  (List.range (min ((rows : Int) - 1) (col - 1)).toNat).map
    (fun (i : Nat) => (1 + (i : Int), col - 1 - (i : Int)))

/-- The scan lines of Agent.evaluate in source order (anchor, walk):
each row left to right (lines 244-257), each column top to bottom
(260-272), top-down diagonals anchored on the left edge from row
n_rows-2 up (276-292), top-down diagonals anchored on the top row at
columns 1..n_cols-3 (295-311), bottom-up diagonals anchored on the right
edge (315-331), and bottom-up diagonals anchored on the top row at
columns n_cols-2..1 (334-350). -/
def evalLines (rows cols : Nat) : List ((Int × Int) × List (Int × Int)) :=
  ((intRange 0 rows).map (fun row =>
      ((row, (0 : Int)), (intRange 1 cols).map (fun c => (row, c)))))
  ++ ((intRange 0 cols).map (fun col =>
      (((0 : Int), col), (intRange 1 rows).map (fun r => (r, col)))))
  ++ ((intRangeDown ((rows : Int) - 2) (-1)).map (fun row =>
      ((row, (0 : Int)), tdWalk rows cols row)))
  ++ ((intRange 1 ((cols : Int) - 2)).map (fun col =>
      (((0 : Int), col), tdTopWalk rows cols col)))
  ++ ((intRangeDown ((rows : Int) - 2) (-1)).map (fun row =>
      ((row, (cols : Int) - 1), buWalk rows cols row)))
  ++ ((intRangeDown ((cols : Int) - 2) 0).map (fun col =>
      (((0 : Int), col), buTopWalk rows col)))

/-- Agent.evaluate (Agent.py lines 210-360): run the scan lines through the
streak accounting, then score 5/25/125 points for the player streaks of
sizes 2/3/4 and minus 5/50/200 for the opponent streaks of sizes 2/3/4
(lines 352-360).  The final lookups read sizes 2, 3 and 4 of
streaks_overall, whose keys are 0..n_to_win, so they raise KeyError
(here: none) when n_to_win < 4, matching the source comment that the
scoring piece requires a manual rewrite when n_to_win is not 4. -/
def evaluate (rows cols n : Nat) (b : Board) (player : Nat) : Option Int :=
  let opponent : Nat := if player = 1 then 2 else 1
  let st0 : EvalSt :=
    ((List.replicate (n + 1) 0, List.replicate (n + 1) 0), (0, 0))
  ((evalLines rows cols).foldlM
      (fun st al => lineProc b n player opponent al.1 al.2 st) st0).bind
    (fun st =>
      (sdGet st.1 player).bind (fun sp =>
      (sp.get? 2).bind (fun sp2 =>
      (sp.get? 3).bind (fun sp3 =>
      (sp.get? 4).bind (fun sp4 =>
      (sdGet st.1 opponent).bind (fun so =>
      (so.get? 2).bind (fun so2 =>
      (so.get? 3).bind (fun so3 =>
      (so.get? 4).map (fun (so4 : Nat) =>
        (5 * (sp2 : Int) + 25 * (sp3 : Int) + 125 * (sp4 : Int))
          - (5 * (so2 : Int) + 50 * (so3 : Int) + 200 * (so4 : Int)))))))))))

/-!  ## Agent.py: State, tree generation, minimax, ai_move  -/

/-- State (Agent.py lines 5-36): board snapshot, count of open positions,
and the move that produced the state.  The root state built by set_state
has no move attribute, hence the Option; reading a missing attribute is an
AttributeError, modelled as none at the use site. -/
structure StateL where
  positions : Board
  n_pos_open : Nat
  move : Option (Nat × Nat)

/-- Child state construction (State.__init__ with a prev_state, Agent.py
lines 20-24): copy the parent positions, place current_player at
(row, column), record the move, decrement the open count. -/
def childState (st : StateL) (row col player : Nat) : StateL :=
  ⟨setCell st.positions row col player, st.n_pos_open - 1, some (row, col)⟩

/-- Agent.gen_states (Agent.py lines 79-97): None when no positions are
open, otherwise the list of children obtained by placing current_player at
every valid (row, col), scanning rows outer and columns inner. -/
def gen_states (rows cols : Nat) (st : StateL) (player : Nat) :
    Option (List StateL) :=
  if st.n_pos_open = 0 then none
  else some ((List.range rows).flatMap (fun (r : Nat) =>
    (List.range cols).filterMap (fun (c : Nat) =>
      if is_valid_move rows cols st.positions (r : Int) (c : Int) then
        some (childState st r c player)
      else none)))

/-- A game tree: the node state and the child subtrees. -/
inductive GTree where
  | node : StateL → List GTree → GTree

/-- The children of a tree node. -/
def GTree.children : GTree → List GTree
  | .node _ cs => cs

/-- The state stored at a tree node. -/
def GTree.state : GTree → StateL
  | .node st _ => st

/-- Agent.generate_tree (Agent.py lines 121-156), written with the
remaining depth budget max_depth - depth as the recursion argument: at
budget 0 the depth check tree.depth(parent) == max_depth stops, otherwise
the node gets one child per generated state and recursion continues with
the other player.  gen_states returning None also stops. -/
def generate_tree (rows cols : Nat) (st : StateL) (player : Nat) :
    Nat → GTree
  | 0 => .node st []
  | rem + 1 =>
    match gen_states rows cols st player with
    | none => .node st []
    | some l =>
      .node st (l.map (fun st' =>
        generate_tree rows cols st' (if player = 1 then 2 else 1) rem))

/-- list.index (first index holding the value; Python raises ValueError
when absent, modelled as none). -/
def list_index (l : List Int) (v : Int) : Option Nat :=
  match l with
  | [] => none
  | x :: xs => if x = v then some 0 else (list_index xs v).map (· + 1)

mutual

/-- Agent.minimax (Agent.py lines 362-385).  depth is the node depth in
the tree (the source reads it back from treelib); odd depth is a min node.
A leaf returns (evaluate(positions, self.player), -1); an inner node
collects the child values, takes their min or max, and returns it with the
index of its first occurrence (children_vals.index). -/
def minimax (rows cols n selfPlayer : Nat) (t : GTree) (depth : Nat) :
    Option (Int × Int) :=
  match t with
  | .node st children =>
    match children with
    | [] => (evaluate rows cols n st.positions selfPlayer).map
        (fun v => (v, (-1 : Int)))
    | c :: cs =>
      (minimaxVals rows cols n selfPlayer (c :: cs) (depth + 1)).bind
        (fun vals =>
          match vals with
          | [] => none
          | v :: vs =>
            if depth % 2 = 1 then
              let m := vs.foldl min v
              (list_index (v :: vs) m).map (fun i => (m, (i : Int)))
            else
              let m := vs.foldl max v
              (list_index (v :: vs) m).map (fun i => (m, (i : Int))))

/-- The loop of Agent.minimax lines 372-376: recurse on every child and
collect the values, discarding the returned indices. -/
def minimaxVals (rows cols n selfPlayer : Nat) (ts : List GTree)
    (depth : Nat) : Option (List Int) :=
  match ts with
  | [] => some []
  | t :: rest =>
    (minimax rows cols n selfPlayer t depth).bind (fun vi =>
      (minimaxVals rows cols n selfPlayer rest depth).map
        (fun others => vi.1 :: others))

end

/-- Agent.ai_move (Agent.py lines 387-403): snapshot the board into the
root state (set_agent_state / State.set_state copies the array), build the
tree with depth limit 5, run minimax from the root, and fetch the chosen
child move with Python list indexing (root_children[child]).  On a leaf
root the returned index is -1 and root_children is empty, so the indexing
raises IndexError (none); a child state always carries a move. -/
def ai_move (rows cols n selfPlayer : Nat) (board : Board)
    (n_pos_open : Nat) : Option (Nat × Nat) :=
  let depth_limit : Nat := 5
  let root : StateL := ⟨board, n_pos_open, none⟩
  let t := generate_tree rows cols root selfPlayer depth_limit
  (minimax rows cols n selfPlayer t 0).bind (fun vi =>
    (pyGet? t.children vi.2).bind (fun ch => ch.state.move))

/-!  ## Specification-side definitions

These definitions are written from the wording of the specification, not
from the source, and serve as comparison points: a window-table evaluator
(spec section 4.3), a generic windowed win detector (spec section 4.2),
a left-right mirror (spec section 8), and a maximal-run decomposition used
to state what the source evaluator actually computes.  -/

/-- Cell lookup with Nat indices taken from an Int pair whose components
are nonnegative by construction. -/
def cellI (b : Board) (rc : Int × Int) : Nat :=
  cellD b rc.1.toNat rc.2.toNat

/-- All (row, col) index pairs of a rows x cols board, row-major. -/
def allIdx (rows cols : Nat) : List (Nat × Nat) :=
  (List.range rows).flatMap (fun r => (List.range cols).map (fun c => (r, c)))

/-- Window of n cells from anchor (r, c) going right. -/
def winH (r c n : Nat) : List (Nat × Nat) :=
  (List.range n).map (fun j => (r, c + j))

/-- Window of n cells from anchor (r, c) going down. -/
def winV (r c n : Nat) : List (Nat × Nat) :=
  (List.range n).map (fun j => (r + j, c))

/-- Window of n cells from anchor (r, c) going down-right. -/
def winD (r c n : Nat) : List (Nat × Nat) :=
  (List.range n).map (fun j => (r + j, c + j))

/-- Window of n cells from anchor (r, c) going down-left. -/
def winA (r c n : Nat) : List (Nat × Nat) :=
  (List.range n).map (fun j => (r + j, c - j))

/-- All run_length-sized windows that fit on the board, in the four
directions (horizontal, vertical, down-right diagonal, down-left
diagonal), as the spec describes them. -/
def windowsOf (rows cols n : Nat) : List (List (Nat × Nat)) :=
  ((allIdx rows cols).filter (fun rc => rc.2 + n ≤ cols)).map
      (fun rc => winH rc.1 rc.2 n)
  ++ ((allIdx rows cols).filter (fun rc => rc.1 + n ≤ rows)).map
      (fun rc => winV rc.1 rc.2 n)
  ++ ((allIdx rows cols).filter (fun rc => rc.1 + n ≤ rows ∧ rc.2 + n ≤ cols)).map
      (fun rc => winD rc.1 rc.2 n)
  ++ ((allIdx rows cols).filter (fun rc => rc.1 + n ≤ rows ∧ n ≤ rc.2 + 1)).map
      (fun rc => winA rc.1 rc.2 n)

/-- Per-window score table of spec section 4.3, keyed by the counts of
player pieces, opponent pieces and empties in the window. -/
def windowScore (n pc oc ec : Nat) : Int :=
  if pc = n then 100
  else if pc = n - 1 ∧ ec = 1 then 5
  else if pc = n - 2 ∧ ec = 2 then 2
  else if oc = n - 2 ∧ ec = 2 then -2
  else if oc = n - 1 ∧ ec = 1 then -5
  else if oc = n then -100
  else 0

/-- The evaluator the spec describes in section 4.3: sum the window score
over every run_length-sized window of the board. -/
def evaluateWindowsSpec (rows cols n : Nat) (b : Board) (player : Nat) : Int :=
  let opponent : Nat := if player = 1 then 2 else 1
  ((windowsOf rows cols n).map (fun w =>
    let cells := w.map (fun rc => cellD b rc.1 rc.2)
    windowScore n (cells.count player) (cells.count opponent)
      (cells.count 0))).sum

/-- Window filled by one player. -/
def winAllP (b : Board) (p : Nat) (cells : List (Nat × Nat)) : Bool :=
  cells.all (fun rc => cellD b rc.1 rc.2 == p)

/-- Generic diagonal win detector as the spec describes it: some
down-right or down-left diagonal window that fits on the board is filled
by the player, with the window bounds derived from run_length. -/
def diagWinSpec (rows cols n : Nat) (b : Board) (p : Nat) : Bool :=
  ((allIdx rows cols).any (fun rc =>
    decide (rc.1 + n ≤ rows) && decide (rc.2 + n ≤ cols)
      && winAllP b p (winD rc.1 rc.2 n)))
  || ((allIdx rows cols).any (fun rc =>
    decide (rc.1 + n ≤ rows) && decide (n ≤ rc.2 + 1)
      && winAllP b p (winA rc.1 rc.2 n)))

/-- Full-board win scan as the spec describes it (section 4.2): a
horizontal, vertical, down-right or down-left window filled by the player. -/
def hasWonFull (rows cols n : Nat) (b : Board) (p : Nat) : Bool :=
  ((allIdx rows cols).any (fun rc =>
    decide (rc.2 + n ≤ cols) && winAllP b p (winH rc.1 rc.2 n)))
  || ((allIdx rows cols).any (fun rc =>
    decide (rc.1 + n ≤ rows) && winAllP b p (winV rc.1 rc.2 n)))
  || diagWinSpec rows cols n b p

/-- Left-right mirror of a board: cell (r, c) moves to (r, cols-1-c). -/
def mirror (b : Board) : Board :=
  b.map List.reverse

/-- Maximal runs of consecutive equal nonzero cells in a line, carrying
the run in progress as (piece, length so far). -/
def runsFrom (cur : Option (Nat × Nat)) : List Nat → List (Nat × Nat)
  | [] => match cur with | none => [] | some ql => [ql]
  | x :: xs =>
    match cur with
    | none => if x = 0 then runsFrom none xs else runsFrom (some (x, 1)) xs
    | some (q, len) =>
      if x = q then runsFrom (some (q, len + 1)) xs
      else if x = 0 then (q, len) :: runsFrom none xs
      else (q, len) :: runsFrom (some (x, 1)) xs

/-- Maximal nonzero runs of a line: each entry is (piece, run length). -/
def runsOf (l : List Nat) : List (Nat × Nat) :=
  runsFrom none l

/-- Maximal runs with their lengths capped the way the streak accounting
caps them: the ongoing run is carried as (piece, raw counter m); an
extension first caps m at n_to_win, a flush emits min m n_to_win. -/
def runsC (n : Nat) (σ : Option (Nat × Nat)) : List Nat → List (Nat × Nat)
  | [] =>
    match σ with
    | none => []
    | some (q, m) => [(q, min m n)]
  | x :: xs =>
    match σ with
    | none => if x = 0 then runsC n none xs else runsC n (some (x, 1)) xs
    | some (q, m) =>
      if x = q then runsC n (some (q, min m n + 1)) xs
      else if x = 0 then (q, min m n) :: runsC n none xs
      else (q, min m n) :: runsC n (some (x, 1)) xs

/-- Maximal runs of a line with lengths capped at n_to_win. -/
def cappedRuns (n : Nat) (cells : List Nat) : List (Nat × Nat) :=
  (runsOf cells).map (fun e => (e.1, min e.2 n))

/-- Number of maximal runs of piece q in a line whose length capped at
n_to_win equals k. -/
def runCount (n : Nat) (cells : List Nat) (q k : Nat) : Nat :=
  ((cappedRuns n cells).filter (fun e => e.1 = q ∧ e.2 = k)).length

/-- An index pair lying inside a rows x cols board. -/
def InB (rows cols : Nat) (rc : Int × Int) : Prop :=
  0 ≤ rc.1 ∧ rc.1 < (rows : Int) ∧ 0 ≤ rc.2 ∧ rc.2 < (cols : Int)

/-- Number of entries of a run list whose piece is q and whose capped
length is k. -/
def capFilterCount (n : Nat) (rs : List (Nat × Nat)) (q k : Nat) : Nat :=
  ((rs.map (fun e => (e.1, min e.2 n))).filter
    (fun e => e.1 = q ∧ e.2 = k)).length

/-- The current_streak pair described by an ongoing run: component 1 is
the key-1 counter, component 2 the key-2 counter. -/
def curOf (σ : Option (Nat × Nat)) : Nat × Nat :=
  match σ with
  | none => (0, 0)
  | some (q, m) => if q = 1 then (m, 0) else (0, m)

/-- Streak counter of one player at one size (0 when absent). -/
def countAt (S : SDict) (q k : Nat) : Nat :=
  (if q = 1 then S.1 else S.2).getD k 0

/-- Streak weights of Agent.evaluate for the player the board is scored
for: 5, 25, 125 points for capped streak sizes 2, 3, 4. -/
def pWeight (k : Nat) : Int :=
  if k = 2 then 5 else if k = 3 then 25 else if k = 4 then 125 else 0

/-- Streak weights of Agent.evaluate for the opponent: 5, 50, 200 points
for capped streak sizes 2, 3, 4. -/
def oWeight (k : Nat) : Int :=
  if k = 2 then 5 else if k = 3 then 50 else if k = 4 then 200 else 0

/-- Score of one scan line as a function of its maximal runs: each run of
the player scores pWeight of its length capped at n_to_win, each run of
the opponent costs oWeight of its capped length. -/
def lineScore (n p o : Nat) (cells : List Nat) : Int :=
  ((runsOf cells).map (fun ql =>
    if ql.1 = p then pWeight (min ql.2 n)
    else if ql.1 = o then -oWeight (min ql.2 n)
    else 0)).sum

/-- The cells of one scan line of Agent.evaluate: the anchor followed by
the walked cells.  Every index an evaluate scan line visits is
nonnegative and in bounds when the board has at least one row and one
column. -/
def lineCells (b : Board) (al : (Int × Int) × List (Int × Int)) : List Nat :=
  (al.1 :: al.2).map (cellI b)

/-!  ## Heap model of the numpy arrays

The no-mutation claim about ai_move is about object identity (np.copy
versus aliasing), which value semantics cannot express, so the state
constructions of Agent.py are rendered a second time with the position
arrays living in an explicit heap: a store of arrays addressed by index.
np.copy allocates a fresh array; the one in-place write of the source,
self.positions[row, column] = current_player in State.__init__, is a
write to the heap cell the state references.  -/

/-- A store of position arrays; a reference is an index into the store. -/
abbrev Heap := List Board

/-- Read the array a reference designates. -/
def hread (h : Heap) (ref : Nat) : Board :=
  h.getD ref []

/-- Write the array a reference designates. -/
def hwrite (h : Heap) (ref : Nat) (g : Board) : Heap :=
  h.set ref g

/-- Allocate a fresh array initialized with a copy of the given value;
returns the grown heap and the fresh reference. -/
def heapAlloc (h : Heap) (g : Board) : Heap × Nat :=
  (h ++ [g], h.length)

/-- State with its positions array held by reference. -/
structure StateR where
  posRef : Nat
  n_pos_open : Nat
  move : Option (Nat × Nat)

/-- State.set_state (Agent.py lines 26-36): self.positions = np.copy(board)
allocates an independent copy of the array the caller passed in. -/
def set_stateH (h : Heap) (callerRef : Nat) : Heap × Nat :=
  heapAlloc h (hread h callerRef)

/-- State.__init__ with a prev_state (Agent.py lines 20-24): allocate
np.copy(prev_state.positions), then write current_player at (row, column)
into the fresh array. -/
def childStateH (h : Heap) (prev : StateR) (row col player : Nat) :
    Heap × StateR :=
  let h1ref := heapAlloc h (hread h prev.posRef)
  let h2 := hwrite h1ref.1 h1ref.2
    (setCell (hread h1ref.1 h1ref.2) row col player)
  (h2, ⟨h1ref.2, prev.n_pos_open - 1, some (row, col)⟩)

/-- Agent.gen_states over the heap (Agent.py lines 79-97): scan all cells
row-major, and for each valid move build a child state, threading the heap
through the child constructions.  Validity is read from the parent array
through the heap at each step. -/
def gen_statesH (rows cols : Nat) (h : Heap) (st : StateR) (player : Nat) :
    Heap × Option (List StateR) :=
  if st.n_pos_open = 0 then (h, none)
  else
    let acc := (allIdx rows cols).foldl
      (fun (acc : Heap × List StateR) rc =>
        if is_valid_move rows cols (hread acc.1 st.posRef)
            (rc.1 : Int) (rc.2 : Int) then
          let hs := childStateH acc.1 st rc.1 rc.2 player
          (hs.1, acc.2 ++ [hs.2])
        else acc) (h, [])
    (acc.1, some acc.2)

/-- A game tree over heap-allocated states. -/
inductive GTreeR where
  | node : StateR → List GTreeR → GTreeR

/-- Agent.generate_tree over the heap (Agent.py lines 121-156), with the
remaining depth budget as recursion argument, threading the heap through
the child subtree constructions in order. -/
def generate_treeH (rows cols : Nat) (h : Heap) (st : StateR) (player : Nat) :
    Nat → Heap × GTreeR
  | 0 => (h, .node st [])
  | rem + 1 =>
    match gen_statesH rows cols h st player with
    | (h1, none) => (h1, .node st [])
    | (h1, some l) =>
      let acc := l.foldl
        (fun (acc : Heap × List GTreeR) st' =>
          let ht := generate_treeH rows cols acc.1 st'
            (if player = 1 then 2 else 1) rem
          (ht.1, acc.2 ++ [ht.2])) (h1, [])
      (acc.1, .node st acc.2)

mutual

/-- Resolve the references of a heap tree into a value tree, so that the
read-only minimax of the source can run on it unchanged. -/
def materialize (h : Heap) : GTreeR → GTree
  | .node st cs => .node ⟨hread h st.posRef, st.n_pos_open, st.move⟩
      (materializeList h cs)

/-- Resolve a list of heap trees. -/
def materializeList (h : Heap) : List GTreeR → List GTree
  | [] => []
  | t :: ts => materialize h t :: materializeList h ts

end

/-- Agent.ai_move over the heap (Agent.py lines 387-403): the caller's
live board is the array at callerRef; set_state copies it into the root
state, the tree is generated from that copy, and minimax (which only
reads) picks the move.  Returns the final heap beside the move. -/
def ai_moveH (rows cols n selfPlayer : Nat) (h : Heap) (callerRef : Nat)
    (n_pos_open : Nat) : Heap × Option (Nat × Nat) :=
  let depth_limit : Nat := 5
  let hr := set_stateH h callerRef
  let root : StateR := ⟨hr.2, n_pos_open, none⟩
  let ht := generate_treeH rows cols hr.1 root selfPlayer depth_limit
  let t := materialize ht.1 ht.2
  (ht.1, (minimax rows cols n selfPlayer t 0).bind (fun vi =>
    (pyGet? t.children vi.2).bind (fun ch => ch.state.move)))

/-- One heap evolved from another by allocation and writes to fresh
cells only: it is at least as long and agrees on every old reference. -/
def HeapGrows (h h' : Heap) : Prop :=
  h.length ≤ h'.length ∧ ∀ i, i < h.length → h'.get? i = h.get? i

/-- The gravity invariant of the spec (section 3): every cell above an
empty cell of the same column is also empty (row 0 is the top row). -/
def Gravity (rows cols : Nat) (b : Board) : Prop :=
  ∀ r < rows, ∀ c < cols, cellD b r c = 0 →
    ∀ r' < r, cellD b r' c = 0

instance (rows cols : Nat) (b : Board) : Decidable (Gravity rows cols b) := by
  unfold Gravity; infer_instance

/-- A column that still has an empty cell. -/
def colNonFull (rows : Nat) (b : Board) (c : Nat) : Bool :=
  (List.range rows).any (fun r => cellD b r c == 0)

/-!  ## Concrete boards used by the claims  -/

/-- Board with a horizontal four-run for player 1 and one open cell, on a
one-row, five-column game. -/
def bRow15 : Board := [[1, 1, 1, 1, 0]]

/-- 7x7 board holding a down-left diagonal four-run for player 1 anchored
at row 3: cells (3,0), (2,1), (1,2), (0,3). -/
def bDiag77 : Board :=
  [[0, 0, 0, 1, 0, 0, 0],
   [0, 0, 1, 0, 0, 0, 0],
   [0, 1, 0, 0, 0, 0, 0],
   [1, 0, 0, 0, 0, 0, 0],
   [0, 0, 0, 0, 0, 0, 0],
   [0, 0, 0, 0, 0, 0, 0],
   [0, 0, 0, 0, 0, 0, 0]]

/-- Empty 4x4 board. -/
def bEmpty44 : Board :=
  [[0, 0, 0, 0], [0, 0, 0, 0], [0, 0, 0, 0], [0, 0, 0, 0]]

/-- Full 6x7 board with no four-run for either player. -/
def bFull67 : Board :=
  [[1, 2, 1, 2, 1, 2, 1],
   [2, 1, 2, 1, 2, 1, 2],
   [1, 2, 1, 2, 1, 2, 1],
   [2, 1, 2, 1, 2, 1, 2],
   [1, 2, 1, 2, 1, 2, 1],
   [2, 1, 2, 1, 2, 1, 2]]

/-- 6x7 board with a down-left three-run for player 1 on the cells
(1,2), (2,1), (3,0), reaching the left edge. -/
def bAnti67 : Board :=
  [[0, 0, 0, 0, 0, 0, 0],
   [0, 0, 1, 0, 0, 0, 0],
   [0, 1, 0, 0, 0, 0, 0],
   [1, 0, 0, 0, 0, 0, 0],
   [0, 0, 0, 0, 0, 0, 0],
   [0, 0, 0, 0, 0, 0, 0]]

/-- One-row board [[1, 1, 0, 0, 0]]. -/
def bPair15 : Board := [[1, 1, 0, 0, 0]]

/-- Pure mirror of the counting loop shared by is_horizontal_win and
is_vertical_win (connect4.py lines 81-88 and 104-111), on the list of
cell values: count consecutive pieces of p, reset on a mismatch, and
break returning n as soon as the count reaches n. -/
def scanAux (p n : Nat) : List Nat → Nat → Nat
  | [], k => k
  | v :: rest, k =>
    if v = p then (if k + 1 = n then n else scanAux p n rest (k + 1))
    else scanAux p n rest 0

/-- Length of the leading run of p at the head of a value list. -/
def leadRun (p : Nat) : List Nat → Nat
  | [] => 0
  | v :: rest => if v = p then leadRun p rest + 1 else 0

/-- A run of n consecutive p values somewhere in a line of cell values. -/
def hasWinLine (p n : Nat) (vals : List Nat) : Prop :=
  ∃ i, i + n ≤ vals.length ∧ ∀ j < n, vals.getD (i + j) 0 = p

/-- 7x7 board on which player 1 has just completed the down-left diagonal
(0,3),(1,2),(2,1),(3,0) with a move at (3,0): the position respects
gravity, removing that piece leaves no run of four for either player, and
the support cells produce no other run of four. -/
def bLast77 : Board :=
  [[0, 0, 0, 1, 0, 0, 0],
   [0, 0, 1, 2, 0, 0, 0],
   [0, 1, 1, 1, 0, 0, 0],
   [1, 1, 2, 1, 0, 0, 0],
   [1, 1, 1, 2, 0, 0, 0],
   [1, 2, 1, 1, 0, 0, 0],
   [2, 1, 1, 2, 0, 0, 0]]

/-- Hand-built search tree whose root has two children with equal static
evaluations: both child boards evaluate to 0 for player 1. -/
def tTie : GTree :=
  .node ⟨[[0, 0, 0, 0]], 4, none⟩
    [.node ⟨[[1, 0, 0, 0]], 3, some (0, 0)⟩ [],
     .node ⟨[[0, 1, 0, 0]], 3, some (0, 1)⟩ []]

/-!  ## Helper lemmas  -/

lemma list_index_spec :
    ∀ (l : List Int) (v : Int) (i : Nat), list_index l v = some i →
      i < l.length ∧ l.getD i 0 = v ∧ ∀ k, k < i → l.getD k 0 ≠ v := by
  intro l
  induction l with
  | nil => intro v i h; simp [list_index] at h
  | cons x xs ih =>
    intro v i h
    by_cases hx : x = v
    · simp [list_index, hx] at h
      subst h
      exact ⟨by simp, by simpa using hx, by intro k hk; omega⟩
    · simp [list_index, hx] at h
      obtain ⟨j, hj, rfl⟩ := h
      obtain ⟨h1, h2, h3⟩ := ih v j hj
      refine ⟨by simpa using h1, by simpa using h2, ?_⟩
      intro k hk
      cases k with
      | zero => simpa using hx
      | succ k' => simpa using h3 k' (by omega)

lemma list_index_mem :
    ∀ (l : List Int) (v : Int), v ∈ l → ∃ i, list_index l v = some i := by
  intro l
  induction l with
  | nil => intro v h; simp at h
  | cons x xs ih =>
    intro v h
    by_cases hx : x = v
    · exact ⟨0, by simp [list_index, hx]⟩
    · have : v ∈ xs := by
        rcases List.mem_cons.mp h with h' | h'
        · exact absurd h'.symm hx
        · exact h'
      obtain ⟨i, hi⟩ := ih v this
      exact ⟨i + 1, by simp [list_index, hx, hi]⟩

lemma foldl_min_mem : ∀ (vs : List Int) (v0 : Int), vs.foldl min v0 ∈ v0 :: vs := by
  intro vs
  induction vs with
  | nil => intro v0; simp
  | cons x xs ih =>
    intro v0
    have h := ih (min v0 x)
    rw [List.foldl_cons]
    rcases List.mem_cons.mp h with h' | h'
    · rcases min_choice v0 x with hc | hc <;> rw [h', hc] <;> simp
    · exact List.mem_cons.mpr (Or.inr (List.mem_cons.mpr (Or.inr h')))

lemma foldl_min_le_init : ∀ (vs : List Int) (v0 : Int), vs.foldl min v0 ≤ v0 := by
  intro vs
  induction vs with
  | nil => intro v0; simp
  | cons x xs ih =>
    intro v0
    rw [List.foldl_cons]
    exact le_trans (ih (min v0 x)) (min_le_left _ _)

lemma foldl_min_le_mem :
    ∀ (vs : List Int) (v0 x : Int), x ∈ vs → vs.foldl min v0 ≤ x := by
  intro vs
  induction vs with
  | nil => intro v0 x h; simp at h
  | cons y ys ih =>
    intro v0 x h
    rw [List.foldl_cons]
    rcases List.mem_cons.mp h with h' | h'
    · rw [h']
      exact le_trans (foldl_min_le_init ys (min v0 y)) (min_le_right _ _)
    · exact ih (min v0 y) x h'

lemma foldl_max_mem : ∀ (vs : List Int) (v0 : Int), vs.foldl max v0 ∈ v0 :: vs := by
  intro vs
  induction vs with
  | nil => intro v0; simp
  | cons x xs ih =>
    intro v0
    have h := ih (max v0 x)
    rw [List.foldl_cons]
    rcases List.mem_cons.mp h with h' | h'
    · rcases max_choice v0 x with hc | hc <;> rw [h', hc] <;> simp
    · exact List.mem_cons.mpr (Or.inr (List.mem_cons.mpr (Or.inr h')))

lemma foldl_max_le_init : ∀ (vs : List Int) (v0 : Int), v0 ≤ vs.foldl max v0 := by
  intro vs
  induction vs with
  | nil => intro v0; simp
  | cons x xs ih =>
    intro v0
    rw [List.foldl_cons]
    exact le_trans (le_max_left _ _) (ih (max v0 x))

lemma foldl_max_le_mem :
    ∀ (vs : List Int) (v0 x : Int), x ∈ vs → x ≤ vs.foldl max v0 := by
  intro vs
  induction vs with
  | nil => intro v0 x h; simp at h
  | cons y ys ih =>
    intro v0 x h
    rw [List.foldl_cons]
    rcases List.mem_cons.mp h with h' | h'
    · rw [h']
      exact le_trans (le_max_right _ _) (foldl_max_le_init ys (max v0 y))
    · exact ih (max v0 y) x h'

lemma heapGrows_refl (h : Heap) : HeapGrows h h :=
  ⟨le_refl _, fun _ _ => rfl⟩

lemma heapGrows_trans {h1 h2 h3 : Heap} :
    HeapGrows h1 h2 → HeapGrows h2 h3 → HeapGrows h1 h3 := by
  intro a b
  exact ⟨le_trans a.1 b.1,
    fun i hi => (b.2 i (lt_of_lt_of_le hi a.1)).trans (a.2 i hi)⟩

lemma heapAlloc_grows (h : Heap) (g : Board) : HeapGrows h (heapAlloc h g).1 :=
  ⟨by simp [heapAlloc], fun i hi => List.get?_append hi⟩

lemma childStateH_grows (h : Heap) (prev : StateR) (r c p : Nat) :
    HeapGrows h (childStateH h prev r c p).1 := by
  unfold childStateH heapAlloc hwrite
  refine ⟨by simp, ?_⟩
  intro i hi
  rw [List.get?_set_ne _ _ (by simpa using Nat.ne_of_gt hi)]
  exact List.get?_append hi

lemma foldl_heapGrows {α β : Type} (step : (Heap × β) → α → (Heap × β))
    (hstep : ∀ acc x, HeapGrows acc.1 (step acc x).1) :
    ∀ (l : List α) (acc : Heap × β), HeapGrows acc.1 ((l.foldl step acc).1) := by
  intro l
  induction l with
  | nil => intro acc; exact heapGrows_refl _
  | cons x xs ih =>
    intro acc
    exact heapGrows_trans (hstep acc x) (ih (step acc x))

lemma gen_statesH_grows (rows cols : Nat) (h : Heap) (st : StateR) (p : Nat) :
    HeapGrows h (gen_statesH rows cols h st p).1 := by
  unfold gen_statesH
  by_cases h0 : st.n_pos_open = 0
  · simp only [h0, if_true]
    exact heapGrows_refl h
  · simp only [h0, if_false]
    exact foldl_heapGrows _
      (fun acc rc => by
        split
        · exact childStateH_grows acc.1 st rc.1 rc.2 p
        · exact heapGrows_refl _) _ (h, [])

lemma generate_treeH_grows (rows cols : Nat) :
    ∀ (rem : Nat) (h : Heap) (st : StateR) (player : Nat),
      HeapGrows h (generate_treeH rows cols h st player rem).1 := by
  intro rem
  induction rem with
  | zero => intro h st player; exact heapGrows_refl h
  | succ rem ih =>
    intro h st player
    have g1 := gen_statesH_grows rows cols h st player
    cases hg : gen_statesH rows cols h st player with
    | mk h1 ol =>
      rw [hg] at g1
      cases ol with
      | none => simpa [generate_treeH, hg] using g1
      | some l =>
        have g2 := foldl_heapGrows
          (fun (acc : Heap × List GTreeR) st' =>
            ((generate_treeH rows cols acc.1 st'
              (if player = 1 then 2 else 1) rem).1,
             acc.2 ++ [(generate_treeH rows cols acc.1 st'
              (if player = 1 then 2 else 1) rem).2]))
          (fun acc st' => ih acc.1 st' (if player = 1 then 2 else 1)) l (h1, [])
        simp only [generate_treeH, hg]
        exact heapGrows_trans g1 g2

lemma get?_eq_some_getD {α : Type} (d : α) :
    ∀ (l : List α) (i : Nat), i < l.length → l.get? i = some (l.getD i d) := by
  intro l
  induction l with
  | nil => intro i h; simp at h
  | cons x xs ih =>
    intro i h
    cases i with
    | zero => rfl
    | succ j => simpa [List.getD] using ih j (by simpa using h)

lemma pyGet?_pos {α : Type} (d : α) (l : List α) (i : Int)
    (h0 : 0 ≤ i) (hl : i < l.length) :
    pyGet? l i = some (l.getD i.toNat d) := by
  unfold pyGet?
  have h1 : ¬ i < 0 := not_lt.mpr h0
  simp only [h1, if_false]
  exact get?_eq_some_getD d l i.toNat (by omega)

lemma wf_row_length {rows cols : Nat} {b : Board} (wf : Wf rows cols b)
    (i : Nat) (h : i < rows) : (b.getD i []).length = cols := by
  apply wf.2
  have hlen : i < b.length := by rw [wf.1]; exact h
  rw [List.getD_eq_getElem?_getD, List.getElem?_eq_getElem hlen]
  exact List.getElem_mem hlen

lemma bget?_eq_cell {rows cols : Nat} {b : Board} (wf : Wf rows cols b)
    (r c : Int) (hr0 : 0 ≤ r) (hr : r < (rows : Int))
    (hc0 : 0 ≤ c) (hc : c < (cols : Int)) :
    bget? b r c = some (cellD b r.toNat c.toNat) := by
  unfold bget? cellD
  rw [pyGet?_pos [] b r hr0 (by rw [wf.1]; omega)]
  simp only [Option.some_bind]
  exact pyGet?_pos 0 _ c hc0
    (by rw [wf_row_length wf r.toNat (by omega)]; omega)

lemma is_valid_move_spec {rows cols : Nat} {b : Board} (wf : Wf rows cols b)
    {r c : Int} (h : is_valid_move rows cols b r c = true) :
    ∃ rn cn : Nat, r = (rn : Int) ∧ c = (cn : Int) ∧ rn < rows ∧ cn < cols
      ∧ cellD b rn cn = 0
      ∧ (rn = rows - 1 ∨ (rn + 1 < rows ∧ cellD b (rn + 1) cn ≠ 0)) := by
  unfold is_valid_move at h
  by_cases hb : r < 0 ∨ c < 0 ∨ (rows : Int) ≤ r ∨ (cols : Int) ≤ c
  · simp [hb] at h
  · push_neg at hb
    obtain ⟨hr0, hc0, hr, hc⟩ := hb
    refine ⟨r.toNat, c.toNat, by omega, by omega, by omega, by omega, ?_⟩
    rw [if_neg (by push_neg; exact ⟨hr0, hc0, hr, hc⟩),
      bget?_eq_cell wf r c hr0 hr hc0 hc] at h
    by_cases hv : cellD b r.toNat c.toNat = 0
    · refine ⟨hv, ?_⟩
      simp only [hv, ne_eq, not_true_eq_false, if_false] at h
      by_cases hlow : r < (rows : Int) - 1
      · rw [if_pos hlow,
          bget?_eq_cell wf (r + 1) c (by omega) (by omega) hc0 hc] at h
        right
        refine ⟨by omega, ?_⟩
        by_cases hw : cellD b (r + 1).toNat c.toNat = 0
        · simp [hw] at h
        · have : (r + 1).toNat = r.toNat + 1 := by omega
          rw [this] at hw
          exact hw
      · left; omega
    · simp [hv] at h

lemma is_valid_move_intro {rows cols : Nat} {b : Board} (wf : Wf rows cols b)
    (rn cn : Nat) (h1 : rn < rows) (h2 : cn < cols)
    (h3 : cellD b rn cn = 0)
    (h4 : rn = rows - 1 ∨ (rn + 1 < rows ∧ cellD b (rn + 1) cn ≠ 0)) :
    is_valid_move rows cols b (rn : Int) (cn : Int) = true := by
  unfold is_valid_move
  rw [if_neg (by push_neg; refine ⟨by omega, by omega, by omega, by omega⟩),
    bget?_eq_cell wf _ _ (by omega) (by omega) (by omega) (by omega)]
  simp only [Int.toNat_ofNat, h3, ne_eq, not_true_eq_false, if_false]
  rcases h4 with h4 | h4
  · rw [if_neg (by omega)]
  · rw [if_pos (by omega),
      bget?_eq_cell wf _ _ (by omega) (by omega) (by omega) (by omega)]
    have : ((rn : Int) + 1).toNat = rn + 1 := by omega
    rw [this]
    simp [h4.2]

lemma valid_unique {rows cols : Nat} {b : Board} (wf : Wf rows cols b)
    (grav : Gravity rows cols b) (c r1 r2 : Int)
    (v1 : is_valid_move rows cols b r1 c = true)
    (v2 : is_valid_move rows cols b r2 c = true) : r1 = r2 := by
  obtain ⟨a1, c1, rfl, rfl, ha1, hc1, he1, hs1⟩ := is_valid_move_spec wf v1
  obtain ⟨a2, c2, ha, hcc, ha2, hc2, he2, hs2⟩ := is_valid_move_spec wf v2
  have hc' : c1 = c2 := by omega
  subst hc'
  have key : ∀ x y : Nat, x < y → y < rows → cellD b x c1 = 0 →
      cellD b y c1 = 0 →
      (x = rows - 1 ∨ (x + 1 < rows ∧ cellD b (x + 1) c1 ≠ 0)) → False := by
    intro x y hxy hy hx0 hy0 hs
    rcases hs with hs | hs
    · omega
    · have : cellD b (x + 1) c1 = 0 := by
        rcases Nat.lt_or_ge (x + 1) y with hlt | hge
        · exact grav y hy c1 hc1 hy0 (x + 1) hlt
        · have : x + 1 = y := by omega
          rw [this]; exact hy0
      exact hs.2 this
  rcases Nat.lt_trichotomy a1 a2 with hlt | heq | hgt
  · exact (key a1 a2 hlt ha2 he1 he2 hs1).elim
  · omega
  · exact (key a2 a1 hgt ha1 he2 he1 hs2).elim

lemma valid_exists {rows cols : Nat} {b : Board} (wf : Wf rows cols b)
    (c : Nat) (hc : c < cols) (r : Nat) (hr : r < rows)
    (he : cellD b r c = 0) :
    ∃ rn : Nat, rn < rows
      ∧ is_valid_move rows cols b (rn : Int) (c : Int) = true := by
  classical
  set P : Nat → Prop := fun x => cellD b x c = 0 with hP
  have hrows : 1 ≤ rows := by omega
  have hmb : r ≤ rows - 1 := by omega
  have hspec : P (Nat.findGreatest P (rows - 1)) :=
    Nat.findGreatest_spec hmb he
  have hle : Nat.findGreatest P (rows - 1) ≤ rows - 1 :=
    Nat.findGreatest_le _
  refine ⟨Nat.findGreatest P (rows - 1), by omega, ?_⟩
  apply is_valid_move_intro wf _ _ (by omega) hc hspec
  by_cases htop : Nat.findGreatest P (rows - 1) = rows - 1
  · exact Or.inl htop
  · right
    refine ⟨by omega, ?_⟩
    have := Nat.findGreatest_is_greatest
      (Nat.lt_succ_self (Nat.findGreatest P (rows - 1))) (by omega)
    simpa [hP] using this

lemma length_filterMap_countP {α β : Type} (f : α → Option β) :
    ∀ l : List α, (l.filterMap f).length = l.countP (fun a => (f a).isSome) := by
  intro l
  induction l with
  | nil => rfl
  | cons x xs ih =>
    cases hf : f x <;>
      simp [List.filterMap_cons, hf, List.countP_cons, ih]

lemma length_flatMap_sum {α β : Type} (g : α → List β) :
    ∀ l : List α, (l.flatMap g).length = (l.map (fun x => (g x).length)).sum := by
  intro l
  induction l with
  | nil => rfl
  | cons x xs ih => simp [List.flatMap_cons, ih]

lemma countP_range_finset (p : Nat → Bool) :
    ∀ n : Nat, (List.range n).countP p
      = ∑ i in Finset.range n, (if p i then 1 else 0) := by
  intro n
  induction n with
  | zero => rfl
  | succ m ih =>
    rw [List.range_succ, List.countP_append, Finset.sum_range_succ, ih]
    simp [List.countP_cons]

lemma map_range_sum (f : Nat → Nat) :
    ∀ n : Nat, ((List.range n).map f).sum = ∑ i in Finset.range n, f i := by
  intro n
  induction n with
  | zero => rfl
  | succ m ih =>
    rw [List.range_succ, List.map_append, List.sum_append,
      Finset.sum_range_succ, ih]
    simp

lemma column_sum_one {rows cols : Nat} {b : Board} (wf : Wf rows cols b)
    (grav : Gravity rows cols b) (c : Nat) (hc : c < cols) :
    (∑ r in Finset.range rows,
        (if is_valid_move rows cols b (r : Int) (c : Int) then 1 else 0))
      = (if colNonFull rows b c then 1 else 0) := by
  cases hnf : colNonFull rows b c with
  | true =>
    have hex : ∃ r, r < rows ∧ cellD b r c = 0 := by
      have := hnf
      unfold colNonFull at this
      rw [List.any_eq_true] at this
      obtain ⟨r, hr, he⟩ := this
      exact ⟨r, List.mem_range.mp hr, by simpa using he⟩
    obtain ⟨r, hr, he⟩ := hex
    obtain ⟨rn, hrn, hv⟩ := valid_exists wf c hc r hr he
    rw [if_pos rfl]
    rw [Finset.sum_eq_single_of_mem rn (Finset.mem_range.mpr hrn)]
    · rw [if_pos hv]
    · intro x _ hx
      rw [if_neg]
      intro hvx
      have := valid_unique wf grav (c : Int) (x : Int) (rn : Int) hvx hv
      exact hx (by omega)
  | false =>
    rw [if_neg (by simp [hnf])]
    apply Finset.sum_eq_zero
    intro x _
    rw [if_neg]
    intro hvx
    obtain ⟨a, ccn, hax, hcc, ha, hccn, hcell, _⟩ := is_valid_move_spec wf hvx
    have hcc' : ccn = c := by omega
    have : colNonFull rows b c = true := by
      unfold colNonFull
      rw [List.any_eq_true]
      refine ⟨a, List.mem_range.mpr ha, ?_⟩
      rw [← hcc']
      simpa using hcell
    rw [hnf] at this
    exact Bool.noConfusion this

lemma getD_set_self : ∀ (l : List Nat) (i v : Nat), i < l.length →
    (l.set i v).getD i 0 = v := by
  intro l
  induction l with
  | nil => intro i v h; simp at h
  | cons x xs ih =>
    intro i v h
    cases i with
    | zero => rfl
    | succ j => simpa [List.getD] using ih j v (by simpa using h)

lemma getD_set_ne : ∀ (l : List Nat) (i j v : Nat), i ≠ j →
    (l.set i v).getD j 0 = l.getD j 0 := by
  intro l
  induction l with
  | nil => intro i j v _; simp
  | cons x xs ih =>
    intro i j v h
    cases i with
    | zero =>
      cases j with
      | zero => exact absurd rfl h
      | succ j' => simp [List.getD]
    | succ i' =>
      cases j with
      | zero => simp [List.getD]
      | succ j' => simpa [List.getD] using ih i' j' v (by omega)

lemma bump_one (l1 l2 : List Nat) (sz : Nat) (h : sz < l1.length) :
    bump (l1, l2) 1 sz = some (l1.set sz (l1.getD sz 0 + 1), l2) := by
  have hb : bump (l1, l2) 1 sz
      = (l1.get? sz).map (fun v => (l1.set sz (v + 1), l2)) := rfl
  rw [hb, get?_eq_some_getD 0 l1 sz h]
  rfl

lemma bump_two (l1 l2 : List Nat) (sz : Nat) (h : sz < l2.length) :
    bump (l1, l2) 2 sz = some (l1, l2.set sz (l2.getD sz 0 + 1)) := by
  have hb : bump (l1, l2) 2 sz
      = (l2.get? sz).map (fun v => (l1, l2.set sz (v + 1))) := rfl
  rw [hb, get?_eq_some_getD 0 l2 sz h]
  rfl

lemma runsC_none_eq (n : Nat) : ∀ (vals : List Nat),
    (runsC n none vals
      = (runsFrom none vals).map (fun e => (e.1, min e.2 n)))
    ∧ (∀ q L, 1 ≤ L → runsC n (some (q, min L (n + 1))) vals
      = (runsFrom (some (q, L)) vals).map (fun e => (e.1, min e.2 n))) := by
  intro vals
  induction vals with
  | nil =>
    constructor
    · rfl
    · intro q L hL
      have : min (min L (n + 1)) n = min L n := by omega
      simp [runsC, runsFrom, this]
  | cons x xs ih =>
    constructor
    · by_cases hx : x = 0
      · simp [runsC, runsFrom, hx, ih.1]
      · have h1 : (1 : Nat) = min 1 (n + 1) := by omega
        simp only [runsC, runsFrom, hx, if_false]
        conv_lhs => rw [h1]
        exact ih.2 x 1 (by omega)
    · intro q L hL
      by_cases hxq : x = q
      · have hms : min (min L (n + 1)) n + 1 = min (L + 1) (n + 1) := by omega
        simp only [runsC, runsFrom, hxq, if_true, hms]
        exact ih.2 q (L + 1) (by omega)
      · by_cases hx : x = 0
        · subst hx
          have hms : min (min L (n + 1)) n = min L n := by omega
          simp [runsC, runsFrom, hxq, hms, ih.1]
        · have hms : min (min L (n + 1)) n = min L n := by omega
          have h1 : (1 : Nat) = min 1 (n + 1) := by omega
          simp only [runsC, runsFrom, hxq, hx, if_false, hms, List.map_cons]
          conv_lhs => rw [h1]
          rw [ih.2 x 1 (by omega)]

lemma acc_zero_none (n p o : Nat) (hpo : p = 1 ∧ o = 2 ∨ p = 2 ∧ o = 1)
    (l1 l2 : List Nat) (h1 : l1.length = n + 1) (h2 : l2.length = n + 1)
    (prev : Nat) :
    streak_accounting n p o prev 0 ((l1, l2), curOf none)
      = some ((l1.set 0 (l1.getD 0 0 + 1), l2.set 0 (l2.getD 0 0 + 1)),
              (0, 0)) := by
  rcases hpo with ⟨hp, ho⟩ | ⟨hp, ho⟩ <;> subst hp <;> subst ho
  · simp only [streak_accounting, curOf, curGet, curSet]
    norm_num
    rw [bump_one l1 l2 0 (by omega)]
    simp only [Option.some_bind]
    rw [bump_two (l1.set 0 (l1.getD 0 0 + 1)) l2 0 (by omega)]
    simp [List.getD_eq_getElem?_getD]
  · simp only [streak_accounting, curOf, curGet, curSet]
    norm_num
    rw [bump_two l1 l2 0 (by omega)]
    simp only [Option.some_bind]
    rw [bump_one l1 (l2.set 0 (l2.getD 0 0 + 1)) 0 (by omega)]
    simp [List.getD_eq_getElem?_getD]

lemma acc_zero_one (n p o : Nat) (hpo : p = 1 ∧ o = 2 ∨ p = 2 ∧ o = 1)
    (l1 l2 : List Nat) (h1 : l1.length = n + 1) (h2 : l2.length = n + 1)
    (prev m : Nat) :
    streak_accounting n p o prev 0 ((l1, l2), curOf (some (1, m)))
      = some ((l1.set (min m n) (l1.getD (min m n) 0 + 1),
               l2.set 0 (l2.getD 0 0 + 1)), (0, 0)) := by
  rcases hpo with ⟨hp, ho⟩ | ⟨hp, ho⟩ <;> subst hp <;> subst ho
  · simp only [streak_accounting, curOf, curGet, curSet]
    norm_num
    rw [bump_one l1 l2 (min m n) (by omega)]
    simp only [Option.some_bind]
    rw [bump_two (l1.set (min m n) (l1.getD (min m n) 0 + 1)) l2 0 (by omega)]
    simp [List.getD_eq_getElem?_getD]
  · simp only [streak_accounting, curOf, curGet, curSet]
    norm_num
    rw [bump_two l1 l2 0 (by omega)]
    simp only [Option.some_bind]
    rw [bump_one l1 (l2.set 0 (l2.getD 0 0 + 1)) (min m n) (by omega)]
    simp [List.getD_eq_getElem?_getD]

lemma acc_zero_two (n p o : Nat) (hpo : p = 1 ∧ o = 2 ∨ p = 2 ∧ o = 1)
    (l1 l2 : List Nat) (h1 : l1.length = n + 1) (h2 : l2.length = n + 1)
    (prev m : Nat) :
    streak_accounting n p o prev 0 ((l1, l2), curOf (some (2, m)))
      = some ((l1.set 0 (l1.getD 0 0 + 1),
               l2.set (min m n) (l2.getD (min m n) 0 + 1)), (0, 0)) := by
  rcases hpo with ⟨hp, ho⟩ | ⟨hp, ho⟩ <;> subst hp <;> subst ho
  · simp only [streak_accounting, curOf, curGet, curSet]
    norm_num
    rw [bump_one l1 l2 0 (by omega)]
    simp only [Option.some_bind]
    rw [bump_two (l1.set 0 (l1.getD 0 0 + 1)) l2 (min m n) (by omega)]
    simp [List.getD_eq_getElem?_getD]
  · simp only [streak_accounting, curOf, curGet, curSet]
    norm_num
    rw [bump_two l1 l2 (min m n) (by omega)]
    simp only [Option.some_bind]
    rw [bump_one l1 (l2.set (min m n) (l2.getD (min m n) 0 + 1)) 0 (by omega)]
    simp [List.getD_eq_getElem?_getD]

lemma acc_piece_none (n p o : Nat) (hpo : p = 1 ∧ o = 2 ∨ p = 2 ∧ o = 1)
    (l1 l2 : List Nat) (x : Nat) (hx : x = 1 ∨ x = 2) :
    streak_accounting n p o 0 x ((l1, l2), curOf none)
      = some ((l1, l2), curOf (some (x, 1))) := by
  rcases hpo with ⟨hp, ho⟩ | ⟨hp, ho⟩ <;> subst hp <;> subst ho <;>
    rcases hx with hx | hx <;> subst hx <;>
    simp [streak_accounting, curOf, curGet, curSet]

lemma acc_same (n p o : Nat) (hpo : p = 1 ∧ o = 2 ∨ p = 2 ∧ o = 1)
    (l1 l2 : List Nat) (q m : Nat) (hq : q = 1 ∨ q = 2) :
    streak_accounting n p o q q ((l1, l2), curOf (some (q, m)))
      = some ((l1, l2), curOf (some (q, min m n + 1))) := by
  rcases hpo with ⟨hp, ho⟩ | ⟨hp, ho⟩ <;> subst hp <;> subst ho <;>
    rcases hq with hq | hq <;> subst hq <;>
    simp [streak_accounting, curOf, curGet, curSet]

lemma acc_switch_one (n p o : Nat) (hpo : p = 1 ∧ o = 2 ∨ p = 2 ∧ o = 1)
    (l1 l2 : List Nat) (h1 : l1.length = n + 1) (m : Nat) :
    streak_accounting n p o 1 2 ((l1, l2), curOf (some (1, m)))
      = some ((l1.set (min m n) (l1.getD (min m n) 0 + 1), l2),
              curOf (some (2, 1))) := by
  rcases hpo with ⟨hp, ho⟩ | ⟨hp, ho⟩ <;> subst hp <;> subst ho <;>
  · simp only [streak_accounting, curOf, curGet, curSet]
    norm_num
    rw [bump_one l1 l2 (min m n) (by omega)]
    simp [List.getD_eq_getElem?_getD]

lemma acc_switch_two (n p o : Nat) (hpo : p = 1 ∧ o = 2 ∨ p = 2 ∧ o = 1)
    (l1 l2 : List Nat) (h2 : l2.length = n + 1) (m : Nat) :
    streak_accounting n p o 2 1 ((l1, l2), curOf (some (2, m)))
      = some ((l1, l2.set (min m n) (l2.getD (min m n) 0 + 1)),
              curOf (some (1, 1))) := by
  rcases hpo with ⟨hp, ho⟩ | ⟨hp, ho⟩ <;> subst hp <;> subst ho <;>
  · simp only [streak_accounting, curOf, curGet, curSet]
    norm_num
    rw [bump_two l1 l2 (min m n) (by omega)]
    simp [List.getD_eq_getElem?_getD]

lemma cleanup_none (n p o : Nat) (hpo : p = 1 ∧ o = 2 ∨ p = 2 ∧ o = 1)
    (l1 l2 : List Nat) (h1 : l1.length = n + 1) (h2 : l2.length = n + 1) :
    streak_cleanup n p o ((l1, l2), curOf none)
      = some ((l1.set 0 (l1.getD 0 0 + 1), l2.set 0 (l2.getD 0 0 + 1)),
              (0, 0)) := by
  rcases hpo with ⟨hp, ho⟩ | ⟨hp, ho⟩ <;> subst hp <;> subst ho
  · simp only [streak_cleanup, curOf, curGet, curSet]
    norm_num
    rw [bump_one l1 l2 0 (by omega)]
    simp only [Option.some_bind]
    rw [bump_two (l1.set 0 (l1.getD 0 0 + 1)) l2 0 (by omega)]
    simp [List.getD_eq_getElem?_getD]
  · simp only [streak_cleanup, curOf, curGet, curSet]
    norm_num
    rw [bump_two l1 l2 0 (by omega)]
    simp only [Option.some_bind]
    rw [bump_one l1 (l2.set 0 (l2.getD 0 0 + 1)) 0 (by omega)]
    simp [List.getD_eq_getElem?_getD]

lemma cleanup_one (n p o : Nat) (hpo : p = 1 ∧ o = 2 ∨ p = 2 ∧ o = 1)
    (l1 l2 : List Nat) (h1 : l1.length = n + 1) (h2 : l2.length = n + 1)
    (m : Nat) :
    streak_cleanup n p o ((l1, l2), curOf (some (1, m)))
      = some ((l1.set (min m n) (l1.getD (min m n) 0 + 1),
               l2.set 0 (l2.getD 0 0 + 1)), (0, 0)) := by
  rcases hpo with ⟨hp, ho⟩ | ⟨hp, ho⟩ <;> subst hp <;> subst ho
  · simp only [streak_cleanup, curOf, curGet, curSet]
    norm_num
    rw [bump_one l1 l2 (min m n) (by omega)]
    simp only [Option.some_bind]
    rw [bump_two (l1.set (min m n) (l1.getD (min m n) 0 + 1)) l2 0 (by omega)]
    simp [List.getD_eq_getElem?_getD]
  · simp only [streak_cleanup, curOf, curGet, curSet]
    norm_num
    rw [bump_two l1 l2 0 (by omega)]
    simp only [Option.some_bind]
    rw [bump_one l1 (l2.set 0 (l2.getD 0 0 + 1)) (min m n) (by omega)]
    simp [List.getD_eq_getElem?_getD]

lemma cleanup_two (n p o : Nat) (hpo : p = 1 ∧ o = 2 ∨ p = 2 ∧ o = 1)
    (l1 l2 : List Nat) (h1 : l1.length = n + 1) (h2 : l2.length = n + 1)
    (m : Nat) :
    streak_cleanup n p o ((l1, l2), curOf (some (2, m)))
      = some ((l1.set 0 (l1.getD 0 0 + 1),
               l2.set (min m n) (l2.getD (min m n) 0 + 1)), (0, 0)) := by
  rcases hpo with ⟨hp, ho⟩ | ⟨hp, ho⟩ <;> subst hp <;> subst ho
  · simp only [streak_cleanup, curOf, curGet, curSet]
    norm_num
    rw [bump_one l1 l2 0 (by omega)]
    simp only [Option.some_bind]
    rw [bump_two (l1.set 0 (l1.getD 0 0 + 1)) l2 (min m n) (by omega)]
    simp [List.getD_eq_getElem?_getD]
  · simp only [streak_cleanup, curOf, curGet, curSet]
    norm_num
    rw [bump_two l1 l2 (min m n) (by omega)]
    simp only [Option.some_bind]
    rw [bump_one l1 (l2.set (min m n) (l2.getD (min m n) 0 + 1)) 0 (by omega)]
    simp [List.getD_eq_getElem?_getD]

lemma walk_runs (n : Nat) (hn : 1 ≤ n) (b : Board) (p o : Nat)
    (hpo : p = 1 ∧ o = 2 ∨ p = 2 ∧ o = 1) :
    ∀ (cells : List (Int × Int)) (vals : List Nat),
      List.Forall₂ (fun rc v => bget? b rc.1 rc.2 = some v ∧ v ≤ 2) cells vals →
      ∀ (σ : Option (Nat × Nat)) (prev : Nat),
        ((prev = 0 ∧ σ = none)
          ∨ ∃ m, 1 ≤ m ∧ σ = some (prev, m) ∧ (prev = 1 ∨ prev = 2)) →
      ∀ (l1 l2 : List Nat), l1.length = n + 1 → l2.length = n + 1 →
      ∃ l1' l2',
        (walkFold b n p o cells prev ((l1, l2), curOf σ)).bind
            (streak_cleanup n p o) = some ((l1', l2'), (0, 0))
        ∧ l1'.length = n + 1 ∧ l2'.length = n + 1
        ∧ ∀ k, 1 ≤ k →
            l1'.getD k 0 = l1.getD k 0
              + ((runsC n σ vals).filter (fun e => e.1 = 1 ∧ e.2 = k)).length
            ∧ l2'.getD k 0 = l2.getD k 0
              + ((runsC n σ vals).filter (fun e => e.1 = 2 ∧ e.2 = k)).length := by
  intro cells vals hf
  induction hf with
  | nil =>
    intro σ prev hco l1 l2 h1 h2
    rcases hco with ⟨hprev, hσ⟩ | ⟨m, hm, hσ, hq⟩
    · subst hσ
      refine ⟨l1.set 0 (l1.getD 0 0 + 1), l2.set 0 (l2.getD 0 0 + 1), ?_, ?_, ?_, ?_⟩
      · simp [walkFold, cleanup_none n p o hpo l1 l2 h1 h2]
      · simp [h1]
      · simp [h2]
      · intro k hk
        rw [getD_set_ne _ 0 k _ (by omega), getD_set_ne _ 0 k _ (by omega)]
        simp [runsC]
    · subst hσ
      rcases hq with hq | hq <;> rw [hq]
      · refine ⟨l1.set (min m n) (l1.getD (min m n) 0 + 1),
          l2.set 0 (l2.getD 0 0 + 1), ?_, ?_, ?_, ?_⟩
        · simp [walkFold, cleanup_one n p o hpo l1 l2 h1 h2 m]
        · simp [h1]
        · simp [h2]
        · intro k hk
          constructor
          · by_cases hkm : k = min m n
            · subst hkm
              rw [getD_set_self _ _ _ (by omega)]
              simp [runsC, List.filter_cons]
            · rw [getD_set_ne _ _ _ _ (by omega)]
              have hkm' : ¬ (min m n = k) := by omega
              simp [runsC, List.filter_cons, hkm']
          · rw [getD_set_ne _ 0 k _ (by omega)]
            simp [runsC, List.filter_cons]
      · refine ⟨l1.set 0 (l1.getD 0 0 + 1),
          l2.set (min m n) (l2.getD (min m n) 0 + 1), ?_, ?_, ?_, ?_⟩
        · simp [walkFold, cleanup_two n p o hpo l1 l2 h1 h2 m]
        · simp [h1]
        · simp [h2]
        · intro k hk
          constructor
          · rw [getD_set_ne _ 0 k _ (by omega)]
            simp [runsC, List.filter_cons]
          · by_cases hkm : k = min m n
            · subst hkm
              rw [getD_set_self _ _ _ (by omega)]
              simp [runsC, List.filter_cons]
            · rw [getD_set_ne _ _ _ _ (by omega)]
              have hkm' : ¬ (min m n = k) := by omega
              simp [runsC, List.filter_cons, hkm']
  | @cons rc v cells' vals' hx hrest ih =>
    intro σ prev hco l1 l2 h1 h2
    obtain ⟨hbg, hv2⟩ := hx
    have hwstep : walkFold b n p o (rc :: cells') prev ((l1, l2), curOf σ)
        = (streak_accounting n p o prev v ((l1, l2), curOf σ)).bind
            (fun st' => walkFold b n p o cells' v st') := by
      simp [walkFold, hbg]
    by_cases hv : v = 0
    · subst hv
      rcases hco with ⟨hprev, hσ⟩ | ⟨m, hm, hσ, hq⟩
      · subst hσ
        rw [hwstep, acc_zero_none n p o hpo l1 l2 h1 h2 prev]
        have hrec := ih none 0 (Or.inl ⟨rfl, rfl⟩)
          (l1.set 0 (l1.getD 0 0 + 1)) (l2.set 0 (l2.getD 0 0 + 1))
          (by simp [h1]) (by simp [h2])
        obtain ⟨l1', l2', he, hl1, hl2, hcnt⟩ := hrec
        refine ⟨l1', l2', ?_, hl1, hl2, ?_⟩
        · simpa [curOf] using he
        · intro k hk
          have := hcnt k hk
          rw [getD_set_ne _ 0 k _ (by omega), getD_set_ne _ 0 k _ (by omega)]
            at this
          simpa [runsC] using this
      · subst hσ
        rcases hq with hq | hq <;> subst hq
        · rw [hwstep, acc_zero_one n p o hpo l1 l2 h1 h2 1 m]
          have hrec := ih none 0 (Or.inl ⟨rfl, rfl⟩)
            (l1.set (min m n) (l1.getD (min m n) 0 + 1))
            (l2.set 0 (l2.getD 0 0 + 1)) (by simp [h1]) (by simp [h2])
          obtain ⟨l1', l2', he, hl1, hl2, hcnt⟩ := hrec
          refine ⟨l1', l2', ?_, hl1, hl2, ?_⟩
          · simpa [curOf] using he
          · intro k hk
            have hc := hcnt k hk
            constructor
            · rw [hc.1]
              by_cases hkm : k = min m n
              · subst hkm
                rw [getD_set_self _ _ _ (by omega)]
                simp [runsC, List.filter_cons]
                omega
              · rw [getD_set_ne _ _ _ _ (by omega)]
                have hkm' : ¬ (min m n = k) := by omega
                simp [runsC, List.filter_cons, hkm']
            · rw [hc.2]
              rw [getD_set_ne _ 0 k _ (by omega)]
              simp [runsC, List.filter_cons]
        · rw [hwstep, acc_zero_two n p o hpo l1 l2 h1 h2 2 m]
          have hrec := ih none 0 (Or.inl ⟨rfl, rfl⟩)
            (l1.set 0 (l1.getD 0 0 + 1))
            (l2.set (min m n) (l2.getD (min m n) 0 + 1))
            (by simp [h1]) (by simp [h2])
          obtain ⟨l1', l2', he, hl1, hl2, hcnt⟩ := hrec
          refine ⟨l1', l2', ?_, hl1, hl2, ?_⟩
          · simpa [curOf] using he
          · intro k hk
            have hc := hcnt k hk
            constructor
            · rw [hc.1]
              rw [getD_set_ne _ 0 k _ (by omega)]
              simp [runsC, List.filter_cons]
            · rw [hc.2]
              by_cases hkm : k = min m n
              · subst hkm
                rw [getD_set_self _ _ _ (by omega)]
                simp [runsC, List.filter_cons]
                omega
              · rw [getD_set_ne _ _ _ _ (by omega)]
                have hkm' : ¬ (min m n = k) := by omega
                simp [runsC, List.filter_cons, hkm']
    · have hv12 : v = 1 ∨ v = 2 := by omega
      rcases hco with ⟨hprev, hσ⟩ | ⟨m, hm, hσ, hq⟩
      · subst hσ; subst hprev
        rw [hwstep, acc_piece_none n p o hpo l1 l2 v hv12]
        have hrec := ih (some (v, 1)) v (Or.inr ⟨1, by omega, rfl, hv12⟩)
          l1 l2 h1 h2
        obtain ⟨l1', l2', he, hl1, hl2, hcnt⟩ := hrec
        refine ⟨l1', l2', by simpa using he, hl1, hl2, ?_⟩
        intro k hk
        have hc := hcnt k hk
        simpa [runsC, hv] using hc
      · subst hσ
        by_cases hvq : v = prev
        · subst hvq
          rw [hwstep, acc_same n p o hpo l1 l2 v m hq]
          have hrec := ih (some (v, min m n + 1)) v
            (Or.inr ⟨min m n + 1, by omega, rfl, hq⟩) l1 l2 h1 h2
          obtain ⟨l1', l2', he, hl1, hl2, hcnt⟩ := hrec
          refine ⟨l1', l2', by simpa using he, hl1, hl2, ?_⟩
          intro k hk
          have hc := hcnt k hk
          simpa [runsC] using hc
        · rcases hq with hq | hq <;> subst hq <;>
            rcases hv12 with hv12 | hv12 <;> subst hv12
          · exact absurd rfl hvq
          · rw [hwstep, acc_switch_one n p o hpo l1 l2 h1 m]
            have hrec := ih (some (2, 1)) 2 (Or.inr ⟨1, by omega, rfl, Or.inr rfl⟩)
              (l1.set (min m n) (l1.getD (min m n) 0 + 1)) l2 (by simp [h1]) h2
            obtain ⟨l1', l2', he, hl1, hl2, hcnt⟩ := hrec
            refine ⟨l1', l2', by simpa using he, hl1, hl2, ?_⟩
            intro k hk
            have hc := hcnt k hk
            constructor
            · rw [hc.1]
              by_cases hkm : k = min m n
              · subst hkm
                rw [getD_set_self _ _ _ (by omega)]
                simp [runsC, List.filter_cons]
                omega
              · rw [getD_set_ne _ _ _ _ (by omega)]
                have hkm' : ¬ (min m n = k) := by omega
                simp [runsC, List.filter_cons, hkm']
            · rw [hc.2]
              simp [runsC, List.filter_cons]
          · rw [hwstep, acc_switch_two n p o hpo l1 l2 h2 m]
            have hrec := ih (some (1, 1)) 1 (Or.inr ⟨1, by omega, rfl, Or.inl rfl⟩)
              l1 (l2.set (min m n) (l2.getD (min m n) 0 + 1)) h1 (by simp [h2])
            obtain ⟨l1', l2', he, hl1, hl2, hcnt⟩ := hrec
            refine ⟨l1', l2', by simpa using he, hl1, hl2, ?_⟩
            intro k hk
            have hc := hcnt k hk
            constructor
            · rw [hc.1]
              simp [runsC, List.filter_cons]
            · rw [hc.2]
              by_cases hkm : k = min m n
              · subst hkm
                rw [getD_set_self _ _ _ (by omega)]
                simp [runsC, List.filter_cons]
                omega
              · rw [getD_set_ne _ _ _ _ (by omega)]
                have hkm' : ¬ (min m n = k) := by omega
                simp [runsC, List.filter_cons, hkm']
          · exact absurd rfl hvq

lemma lineProc_runs (n : Nat) (hn : 1 ≤ n) (b : Board) (p o : Nat)
    (hpo : p = 1 ∧ o = 2 ∨ p = 2 ∧ o = 1)
    (anchor : Int × Int) (walk : List (Int × Int))
    (a : Nat) (ha : bget? b anchor.1 anchor.2 = some a) (ha2 : a ≤ 2)
    (vals : List Nat)
    (hf : List.Forall₂ (fun rc v => bget? b rc.1 rc.2 = some v ∧ v ≤ 2) walk vals)
    (l1 l2 : List Nat) (h1 : l1.length = n + 1) (h2 : l2.length = n + 1) :
    ∃ l1' l2',
      lineProc b n p o anchor walk ((l1, l2), (0, 0)) = some ((l1', l2'), (0, 0))
      ∧ l1'.length = n + 1 ∧ l2'.length = n + 1
      ∧ ∀ k, 1 ≤ k →
          l1'.getD k 0 = l1.getD k 0 + runCount n (a :: vals) 1 k
          ∧ l2'.getD k 0 = l2.getD k 0 + runCount n (a :: vals) 2 k := by
  unfold lineProc
  rw [ha]
  simp only [Option.some_bind]
  by_cases haz : a = 0
  · subst haz
    obtain ⟨l1', l2', he, hl1, hl2, hcnt⟩ :=
      walk_runs n hn b p o hpo walk vals hf none 0 (Or.inl ⟨rfl, rfl⟩)
        l1 l2 h1 h2
    refine ⟨l1', l2', ?_, hl1, hl2, ?_⟩
    · simpa [curOf] using he
    · intro k hk
      have hc := hcnt k hk
      rw [(runsC_none_eq n vals).1] at hc
      have hruns : runsOf (0 :: vals) = runsFrom none vals := by
        simp [runsOf, runsFrom]
      simpa [runCount, cappedRuns, hruns] using hc
  · have ha12 : a = 1 ∨ a = 2 := by omega
    obtain ⟨l1', l2', he, hl1, hl2, hcnt⟩ :=
      walk_runs n hn b p o hpo walk vals hf (some (a, 1)) a
        (Or.inr ⟨1, le_refl 1, rfl, ha12⟩) l1 l2 h1 h2
    refine ⟨l1', l2', ?_, hl1, hl2, ?_⟩
    · rcases ha12 with h | h <;> subst h <;>
        simpa [curGet, curSet, curOf] using he
    · intro k hk
      have hc := hcnt k hk
      have h1m : (1 : Nat) = min 1 (n + 1) := by omega
      rw [show (some (a, 1) : Option (Nat × Nat)) = some (a, min 1 (n + 1)) by
          rw [← h1m],
        (runsC_none_eq n vals).2 a 1 (le_refl 1)] at hc
      have hruns : runsOf (a :: vals) = runsFrom (some (a, 1)) vals := by
        simp [runsOf, runsFrom, haz]
      simpa [runCount, cappedRuns, hruns] using hc

lemma getD_mem_or {α : Type} (d : α) :
    ∀ (l : List α) (i : Nat), l.getD i d ∈ l ∨ l.getD i d = d := by
  intro l
  induction l with
  | nil => intro i; right; cases i <;> rfl
  | cons x xs ih =>
    intro i
    cases i with
    | zero => left; simp [List.getD]
    | succ j =>
      rcases ih j with h | h
      · left
        simp only [List.getD] at h ⊢
        simpa using Or.inr h
      · right
        simpa [List.getD] using h

lemma cellD_le2 {b : Board}
    (hcw : ∀ rowl ∈ b, ∀ v ∈ rowl, v ≤ 2) (r c : Nat) : cellD b r c ≤ 2 := by
  unfold cellD
  rcases getD_mem_or [] b r with hrow | hrow
  · rcases getD_mem_or 0 (b.getD r []) c with hv | hv
    · exact hcw _ hrow _ hv
    · omega
  · rw [hrow]
    simp [List.getD]

lemma forall₂_cellI {rows cols : Nat} {b : Board} (wf : Wf rows cols b)
    (hcw : ∀ rowl ∈ b, ∀ v ∈ rowl, v ≤ 2) :
    ∀ idxs : List (Int × Int), (∀ rc ∈ idxs, InB rows cols rc) →
      List.Forall₂ (fun rc v => bget? b rc.1 rc.2 = some v ∧ v ≤ 2)
        idxs (idxs.map (cellI b)) := by
  intro idxs
  induction idxs with
  | nil => intro _; simp
  | cons rc rest ih =>
    intro hb
    have hrc := hb rc (by simp)
    obtain ⟨hb1, hb2, hb3, hb4⟩ := hrc
    rw [List.map_cons]
    refine List.Forall₂.cons ⟨?_, ?_⟩ (ih (fun x hx => hb x (by simp [hx])))
    · exact bget?_eq_cell wf rc.1 rc.2 hb1 hb2 hb3 hb4
    · exact cellD_le2 hcw _ _

lemma mem_intRange {a c i : Int} (h : i ∈ intRange a c) : a ≤ i ∧ i < c := by
  unfold intRange at h
  rw [List.mem_map] at h
  obtain ⟨j, hj, rfl⟩ := h
  rw [List.mem_range] at hj
  omega

lemma mem_intRangeDown {a c i : Int} (h : i ∈ intRangeDown a c) :
    c < i ∧ i ≤ a := by
  unfold intRangeDown at h
  rw [List.mem_map] at h
  obtain ⟨j, hj, rfl⟩ := h
  rw [List.mem_range] at hj
  omega

lemma evalLines_bounds (rows cols : Nat) (hr : 1 ≤ rows) (hc : 1 ≤ cols) :
    ∀ al ∈ evalLines rows cols,
      InB rows cols al.1 ∧ ∀ rc ∈ al.2, InB rows cols rc := by
  intro al hal
  unfold evalLines at hal
  simp only [List.mem_append] at hal
  rcases hal with ((((hg | hg) | hg) | hg) | hg) | hg <;>
    rw [List.mem_map] at hg
  · obtain ⟨row, hrow, rfl⟩ := hg
    have hb := mem_intRange hrow
    constructor
    · simp only [InB]
      refine ⟨by omega, by omega, by omega, by omega⟩
    · intro rc hrc
      rw [List.mem_map] at hrc
      obtain ⟨c, hcm, rfl⟩ := hrc
      have := mem_intRange hcm
      simp only [InB]
      refine ⟨by omega, by omega, by omega, by omega⟩
  · obtain ⟨col, hcol, rfl⟩ := hg
    have hb := mem_intRange hcol
    constructor
    · simp only [InB]
      refine ⟨by omega, by omega, by omega, by omega⟩
    · intro rc hrc
      rw [List.mem_map] at hrc
      obtain ⟨r, hrm, rfl⟩ := hrc
      have := mem_intRange hrm
      simp only [InB]
      refine ⟨by omega, by omega, by omega, by omega⟩
  · obtain ⟨row, hrow, rfl⟩ := hg
    have hb := mem_intRangeDown hrow
    constructor
    · simp only [InB]
      refine ⟨by omega, by omega, by omega, by omega⟩
    · intro rc hrc
      unfold tdWalk at hrc
      rw [List.mem_map] at hrc
      obtain ⟨i, him, rfl⟩ := hrc
      rw [List.mem_range] at him
      simp only [InB]
      refine ⟨by omega, by omega, by omega, by omega⟩
  · obtain ⟨col, hcol, rfl⟩ := hg
    have hb := mem_intRange hcol
    constructor
    · simp only [InB]
      refine ⟨by omega, by omega, by omega, by omega⟩
    · intro rc hrc
      unfold tdTopWalk at hrc
      rw [List.mem_map] at hrc
      obtain ⟨i, him, rfl⟩ := hrc
      rw [List.mem_range] at him
      simp only [InB]
      refine ⟨by omega, by omega, by omega, by omega⟩
  · obtain ⟨row, hrow, rfl⟩ := hg
    have hb := mem_intRangeDown hrow
    constructor
    · simp only [InB]
      refine ⟨by omega, by omega, by omega, by omega⟩
    · intro rc hrc
      unfold buWalk at hrc
      rw [List.mem_map] at hrc
      obtain ⟨i, him, rfl⟩ := hrc
      rw [List.mem_range] at him
      simp only [InB]
      refine ⟨by omega, by omega, by omega, by omega⟩
  · obtain ⟨col, hcol, rfl⟩ := hg
    have hb := mem_intRangeDown hcol
    constructor
    · simp only [InB]
      refine ⟨by omega, by omega, by omega, by omega⟩
    · intro rc hrc
      unfold buTopWalk at hrc
      rw [List.mem_map] at hrc
      obtain ⟨i, him, rfl⟩ := hrc
      rw [List.mem_range] at him
      simp only [InB]
      refine ⟨by omega, by omega, by omega, by omega⟩

lemma lines_fold (n : Nat) (hn : 1 ≤ n) (rows cols : Nat) (b : Board)
    (wf : Wf rows cols b) (hcw : ∀ rowl ∈ b, ∀ v ∈ rowl, v ≤ 2)
    (p o : Nat) (hpo : p = 1 ∧ o = 2 ∨ p = 2 ∧ o = 1) :
    ∀ (lines : List ((Int × Int) × List (Int × Int))),
      (∀ al ∈ lines, InB rows cols al.1 ∧ ∀ rc ∈ al.2, InB rows cols rc) →
      ∀ l1 l2 : List Nat, l1.length = n + 1 → l2.length = n + 1 →
      ∃ l1' l2',
        lines.foldlM (fun st al => lineProc b n p o al.1 al.2 st)
            ((l1, l2), (0, 0)) = some ((l1', l2'), (0, 0))
        ∧ l1'.length = n + 1 ∧ l2'.length = n + 1
        ∧ ∀ k, 1 ≤ k →
            l1'.getD k 0 = l1.getD k 0
              + (lines.map (fun al => runCount n (lineCells b al) 1 k)).sum
            ∧ l2'.getD k 0 = l2.getD k 0
              + (lines.map (fun al => runCount n (lineCells b al) 2 k)).sum := by
  intro lines
  induction lines with
  | nil =>
    intro _ l1 l2 h1 h2
    exact ⟨l1, l2, rfl, h1, h2, by intro k hk; simp⟩
  | cons al rest ih =>
    intro hb l1 l2 h1 h2
    have hal := hb al (by simp)
    have ha : bget? b al.1.1 al.1.2 = some (cellI b al.1) :=
      bget?_eq_cell wf _ _ hal.1.1 hal.1.2.1 hal.1.2.2.1 hal.1.2.2.2
    obtain ⟨m1, m2, he, hm1, hm2, hcnt⟩ :=
      lineProc_runs n hn b p o hpo al.1 al.2 (cellI b al.1) ha
        (cellD_le2 hcw _ _) ((al.2).map (cellI b))
        (forall₂_cellI wf hcw al.2 hal.2) l1 l2 h1 h2
    obtain ⟨l1', l2', he2, hl1, hl2, hcnt2⟩ :=
      ih (fun x hx => hb x (by simp [hx])) m1 m2 hm1 hm2
    refine ⟨l1', l2', ?_, hl1, hl2, ?_⟩
    · rw [List.foldlM_cons, he]
      simpa using he2
    · intro k hk
      have c1 := hcnt k hk
      have c2 := hcnt2 k hk
      have hlc : lineCells b al = cellI b al.1 :: (al.2).map (cellI b) := rfl
      constructor
      · rw [c2.1, c1.1, List.map_cons, List.sum_cons, hlc]
        omega
      · rw [c2.2, c1.2, List.map_cons, List.sum_cons, hlc]
        omega

lemma runsFrom_pieces :
    ∀ (vals : List Nat) (σ : Option (Nat × Nat)),
      (∀ v ∈ vals, v ≤ 2) → (∀ q m, σ = some (q, m) → q = 1 ∨ q = 2) →
      ∀ e ∈ runsFrom σ vals, e.1 = 1 ∨ e.1 = 2 := by
  intro vals
  induction vals with
  | nil =>
    intro σ _ hσ e he
    cases σ with
    | none => simp [runsFrom] at he
    | some ql =>
      obtain ⟨q, m⟩ := ql
      simp [runsFrom] at he
      subst he
      exact hσ q m rfl
  | cons x xs ih =>
    intro σ hv hσ e he
    have hx2 : x ≤ 2 := hv x (by simp)
    have hxs : ∀ v ∈ xs, v ≤ 2 := fun v hv' => hv v (by simp [hv'])
    cases σ with
    | none =>
      by_cases hx : x = 0
      · rw [show runsFrom none (x :: xs) = runsFrom none xs by
          simp [runsFrom, hx]] at he
        exact ih none hxs (by simp) e he
      · rw [show runsFrom none (x :: xs) = runsFrom (some (x, 1)) xs by
          simp [runsFrom, hx]] at he
        refine ih (some (x, 1)) hxs ?_ e he
        intro q m hqm
        have : q = x := by
          injection hqm with h
          injection h with h1 h2
          exact h1.symm
        omega
    | some ql =>
      obtain ⟨q, len⟩ := ql
      by_cases hxq : x = q
      · rw [show runsFrom (some (q, len)) (x :: xs)
            = runsFrom (some (q, len + 1)) xs by simp [runsFrom, hxq]] at he
        refine ih (some (q, len + 1)) hxs ?_ e he
        intro q' m hqm
        have hq'q : q' = q := by
          injection hqm with h
          injection h with h1 h2
          exact h1.symm
        have := hσ q len rfl
        omega
      · by_cases hx : x = 0
        · subst hx
          rw [show runsFrom (some (q, len)) (0 :: xs)
              = (q, len) :: runsFrom none xs by simp [runsFrom, hxq]] at he
          rcases List.mem_cons.mp he with h | h
          · subst h
            exact hσ q len rfl
          · exact ih none hxs (by simp) e h
        · rw [show runsFrom (some (q, len)) (x :: xs)
              = (q, len) :: runsFrom (some (x, 1)) xs by
                simp [runsFrom, hxq, hx]] at he
          rcases List.mem_cons.mp he with h | h
          · subst h
            exact hσ q len rfl
          · refine ih (some (x, 1)) hxs ?_ e h
            intro q' m hqm
            have : q' = x := by
              injection hqm with h'
              injection h' with h1 h2
              exact h1.symm
            omega

lemma weights_sum (n p o : Nat) (hpo : p = 1 ∧ o = 2 ∨ p = 2 ∧ o = 1) :
    ∀ rs : List (Nat × Nat), (∀ e ∈ rs, e.1 = 1 ∨ e.1 = 2) →
      ((rs.map (fun ql => if ql.1 = p then pWeight (min ql.2 n)
          else if ql.1 = o then -oWeight (min ql.2 n) else 0)).sum : Int)
      = 5 * (capFilterCount n rs p 2 : Int)
        + 25 * (capFilterCount n rs p 3 : Int)
        + 125 * (capFilterCount n rs p 4 : Int)
        - (5 * (capFilterCount n rs o 2 : Int)
          + 50 * (capFilterCount n rs o 3 : Int)
          + 200 * (capFilterCount n rs o 4 : Int)) := by
  intro rs
  induction rs with
  | nil => intro _; simp [capFilterCount]
  | cons e rest ih =>
    intro hq
    have hrest := ih (fun x hx => hq x (by simp [hx]))
    obtain ⟨q, len⟩ := e
    have hq12 : q = 1 ∨ q = 2 := by simpa using hq (q, len) (by simp)
    have hcnt : ∀ q' k, capFilterCount n ((q, len) :: rest) q' k
        = (if q = q' ∧ min len n = k then 1 else 0)
          + capFilterCount n rest q' k := by
      intro q' k
      by_cases hh : q = q' ∧ min len n = k
      · simp [capFilterCount, List.filter_cons, hh.1, hh.2] <;> omega
      · rw [if_neg hh]
        have : ¬ (q = q' ∧ min len n = k) := hh
        simp only [capFilterCount, List.map_cons, List.filter_cons]
        by_cases h1 : q = q'
        · have h2 : ¬ min len n = k := fun hc => hh ⟨h1, hc⟩
          simp [h1, h2, capFilterCount]
        · simp [h1, capFilterCount]
    rw [List.map_cons, List.sum_cons, hrest,
      hcnt p 2, hcnt p 3, hcnt p 4, hcnt o 2, hcnt o 3, hcnt o 4]
    rcases hq12 with hq' | hq' <;> rcases hpo with ⟨hp, ho⟩ | ⟨hp, ho⟩ <;>
      subst hq' <;> subst hp <;> subst ho <;>
      by_cases hk2 : min len n = 2 <;>
      by_cases hk3 : min len n = 3 <;>
      by_cases hk4 : min len n = 4 <;>
      first
        | (exfalso; omega)
        | (simp only [pWeight, oWeight, hk2, hk3, hk4, if_true, if_false,
            if_pos rfl, reduceIte]
           simp [hk2, hk3, hk4]
           push_cast
           ring)
        | (simp [pWeight, oWeight, hk2, hk3, hk4]
           push_cast
           ring)
        | (simp [pWeight, oWeight, hk2, hk3, hk4])

lemma lineScore_decomp (n p o : Nat) (hpo : p = 1 ∧ o = 2 ∨ p = 2 ∧ o = 1)
    (cells : List Nat) (hcw : ∀ v ∈ cells, v ≤ 2) :
    lineScore n p o cells
      = 5 * (runCount n cells p 2 : Int) + 25 * (runCount n cells p 3 : Int)
        + 125 * (runCount n cells p 4 : Int)
        - (5 * (runCount n cells o 2 : Int) + 50 * (runCount n cells o 3 : Int)
          + 200 * (runCount n cells o 4 : Int)) := by
  have hpieces : ∀ e ∈ runsOf cells, e.1 = 1 ∨ e.1 = 2 :=
    runsFrom_pieces cells none hcw (by simp)
  have := weights_sum n p o hpo (runsOf cells) hpieces
  exact this

lemma sum_lines_decomp (n p o : Nat) (hpo : p = 1 ∧ o = 2 ∨ p = 2 ∧ o = 1) :
    ∀ (lcs : List (List Nat)), (∀ cl ∈ lcs, ∀ v ∈ cl, v ≤ 2) →
      ((lcs.map (lineScore n p o)).sum : Int)
        = 5 * ((lcs.map (fun cl => runCount n cl p 2)).sum : Int)
          + 25 * ((lcs.map (fun cl => runCount n cl p 3)).sum : Int)
          + 125 * ((lcs.map (fun cl => runCount n cl p 4)).sum : Int)
          - (5 * ((lcs.map (fun cl => runCount n cl o 2)).sum : Int)
            + 50 * ((lcs.map (fun cl => runCount n cl o 3)).sum : Int)
            + 200 * ((lcs.map (fun cl => runCount n cl o 4)).sum : Int)) := by
  intro lcs
  induction lcs with
  | nil => intro _; simp
  | cons cl rest ih =>
    intro hcw
    have h1 := lineScore_decomp n p o hpo cl (hcw cl (by simp))
    have h2 := ih (fun x hx => hcw x (by simp [hx]))
    simp only [List.map_cons, List.sum_cons]
    rw [h1, h2]
    push_cast
    ring

set_option maxHeartbeats 1000000 in
lemma evaluate_runs (rows cols n : Nat) (b : Board) (player : Nat)
    (wf : Wf rows cols b) (hr : 1 ≤ rows) (hc : 1 ≤ cols) (hn : 4 ≤ n)
    (hp : player = 1 ∨ player = 2)
    (hcw : ∀ rowl ∈ b, ∀ v ∈ rowl, v ≤ 2) :
    evaluate rows cols n b player
      = some (((evalLines rows cols).map (fun al =>
          lineScore n player (if player = 1 then 2 else 1)
            (lineCells b al))).sum) := by
  have hpo : player = 1 ∧ (if player = 1 then 2 else 1) = 2
      ∨ player = 2 ∧ (if player = 1 then 2 else 1) = 1 := by
    rcases hp with h | h <;> subst h <;> simp
  obtain ⟨l1', l2', hfold, hl1, hl2, hcnt⟩ :=
    lines_fold n (by omega) rows cols b wf hcw player
      (if player = 1 then 2 else 1) hpo (evalLines rows cols)
      (evalLines_bounds rows cols hr hc)
      (List.replicate (n + 1) 0) (List.replicate (n + 1) 0)
      (by simp) (by simp)
  have hrepl : ∀ k : Nat, (List.replicate (n + 1) 0).getD k 0 = 0 := by
    intro k
    rcases getD_mem_or 0 (List.replicate (n + 1) 0) k with h | h
    · exact List.eq_of_mem_replicate h
    · exact h
  have hget : ∀ (l : List Nat), l.length = n + 1 → ∀ j, j < n + 1 →
      l[j]? = some (l.getD j 0) := by
    intro l hl j hj
    have h := get?_eq_some_getD 0 l j (by omega)
    rwa [List.get?_eq_getElem?] at h
  have hev : evaluate rows cols n b player
      = ((evalLines rows cols).foldlM
          (fun st al => lineProc b n player
            (if player = 1 then 2 else 1) al.1 al.2 st)
          ((List.replicate (n + 1) 0, List.replicate (n + 1) 0),
            (0, 0))).bind (fun st =>
        (sdGet st.1 player).bind (fun sp =>
        (sp.get? 2).bind (fun sp2 =>
        (sp.get? 3).bind (fun sp3 =>
        (sp.get? 4).bind (fun sp4 =>
        (sdGet st.1 (if player = 1 then 2 else 1)).bind (fun so =>
        (so.get? 2).bind (fun so2 =>
        (so.get? 3).bind (fun so3 =>
        (so.get? 4).map (fun (so4 : Nat) =>
          (5 * (sp2 : Int) + 25 * (sp3 : Int) + 125 * (sp4 : Int))
            - (5 * (so2 : Int) + 50 * (so3 : Int)
              + 200 * (so4 : Int))))))))))) := rfl
  rw [hev, hfold]
  simp only [Option.some_bind]
  have hsum := sum_lines_decomp n player (if player = 1 then 2 else 1) hpo
    ((evalLines rows cols).map (lineCells b))
    (by
      intro cl hcl v hv
      rw [List.mem_map] at hcl
      obtain ⟨al, _, rfl⟩ := hcl
      unfold lineCells at hv
      rw [List.mem_map] at hv
      obtain ⟨rc, _, rfl⟩ := hv
      exact cellD_le2 hcw _ _)
  rcases hp with h | h <;> subst h
  · norm_num [sdGet]
    rw [hget l1' hl1 2 (by omega), hget l1' hl1 3 (by omega),
      hget l1' hl1 4 (by omega)]
    simp only [Option.some_bind]
    rw [hget l2' hl2 2 (by omega), hget l2' hl2 3 (by omega),
      hget l2' hl2 4 (by omega)]
    simp only [Option.some_bind, Option.map_some]
    rw [(hcnt 2 (by omega)).1, (hcnt 3 (by omega)).1, (hcnt 4 (by omega)).1,
      (hcnt 2 (by omega)).2, (hcnt 3 (by omega)).2, (hcnt 4 (by omega)).2,
      hrepl 2, hrepl 3, hrepl 4]
    simp only [List.map_map, Function.comp_def, if_true] at hsum
    try simp only [Option.map_some]
    try simp only [Option.map_some']
    refine congrArg some ?_
    rw [hsum]
    simp only [Nat.zero_add]
  · norm_num [sdGet]
    rw [hget l2' hl2 2 (by omega), hget l2' hl2 3 (by omega),
      hget l2' hl2 4 (by omega)]
    simp only [Option.some_bind]
    rw [hget l1' hl1 2 (by omega), hget l1' hl1 3 (by omega),
      hget l1' hl1 4 (by omega)]
    simp only [Option.some_bind, Option.map_some]
    rw [(hcnt 2 (by omega)).1, (hcnt 3 (by omega)).1, (hcnt 4 (by omega)).1,
      (hcnt 2 (by omega)).2, (hcnt 3 (by omega)).2, (hcnt 4 (by omega)).2,
      hrepl 2, hrepl 3, hrepl 4]
    simp only [List.map_map, Function.comp_def] at hsum
    rw [if_neg (by decide : ((2 : Nat) = 1) -> False)] at hsum
    try simp only [Option.map_some]
    try simp only [Option.map_some']
    refine congrArg some ?_
    rw [hsum]
    simp only [Nat.zero_add]

/-!  ## Totality of the win checks at run length 4  -/

lemma pyGet?_mem {α : Type} (l : List α) (i : Int)
    (h0 : -(l.length : Int) ≤ i) (h1 : i < (l.length : Int)) :
    ∃ v, pyGet? l i = some v ∧ v ∈ l := by
  show ∃ v, (if (if i < 0 then i + (l.length : Int) else i) < 0 then none
      else l.get? (if i < 0 then i + (l.length : Int) else i).toNat) = some v
      ∧ v ∈ l
  have hj0 : ¬ ((if i < 0 then i + (l.length : Int) else i) < 0) := by
    by_cases hi : i < 0
    · rw [if_pos hi]; omega
    · rw [if_neg hi]; omega
  have hjl : (if i < 0 then i + (l.length : Int) else i).toNat < l.length := by
    by_cases hi : i < 0
    · rw [if_pos hi]; omega
    · rw [if_neg hi]; omega
  rw [if_neg hj0]
  rcases hv : l.get? (if i < 0 then i + (l.length : Int) else i).toNat
    with _ | v
  · rw [List.get?_eq_none] at hv
    omega
  · exact ⟨v, rfl, List.get?_mem hv⟩

lemma bget?_some {rows cols : Nat} {b : Board} (wf : Wf rows cols b)
    (r c : Int) (hr0 : -(rows : Int) ≤ r) (hr1 : r < (rows : Int))
    (hc0 : -(cols : Int) ≤ c) (hc1 : c < (cols : Int)) :
    ∃ v, bget? b r c = some v := by
  have hlen : b.length = rows := wf.1
  obtain ⟨row, hrow, hmem⟩ := pyGet?_mem b r (by omega) (by omega)
  have hrl : row.length = cols := wf.2 row hmem
  obtain ⟨v, hv, _⟩ := pyGet?_mem row c (by omega) (by omega)
  refine ⟨v, ?_⟩
  unfold bget?
  rw [hrow]
  simpa using hv

lemma scanLoop_some {b : Board} {player n : Nat} :
    ∀ (cells : List (Int × Int)),
      (∀ rc ∈ cells, ∃ v, bget? b rc.1 rc.2 = some v) →
      ∀ k, ∃ m, scanLoop b player n cells k = some m := by
  intro cells
  induction cells with
  | nil => intro _ k; exact ⟨k, rfl⟩
  | cons rc rest ih =>
    intro h k
    obtain ⟨v, hv⟩ := h rc (by simp)
    have ih' := ih (fun x hx => h x (by simp [hx]))
    unfold scanLoop
    rw [hv]
    simp only [Option.some_bind]
    by_cases hvp : v = player
    · rw [if_pos hvp]
      by_cases hk : k + 1 = n
      · rw [if_pos hk]; exact ⟨k + 1, rfl⟩
      · rw [if_neg hk]; exact ih' (k + 1)
    · rw [if_neg hvp]; exact ih' 0

lemma firstTrue_some {α : Type} (f : α → Option Bool) :
    ∀ (xs : List α), (∀ x ∈ xs, ∃ t, f x = some t) →
      ∃ t, firstTrue f xs = some t := by
  intro xs
  induction xs with
  | nil => intro _; exact ⟨false, rfl⟩
  | cons x rest ih =>
    intro h
    obtain ⟨t, ht⟩ := h x (by simp)
    unfold firstTrue
    rw [ht]
    simp only [Option.some_bind]
    by_cases htt : t = true
    · rw [if_pos htt]; exact ⟨true, rfl⟩
    · rw [if_neg htt]; exact ih (fun y hy => h y (by simp [hy]))

lemma tdCheck_some {b : Board} {player : Nat} {r c : Int}
    (h0 : ∃ v, bget? b r c = some v)
    (h1 : ∃ v, bget? b (r + 1) (c + 1) = some v)
    (h2 : ∃ v, bget? b (r + 2) (c + 2) = some v)
    (h3 : ∃ v, bget? b (r + 3) (c + 3) = some v) :
    ∃ t, tdCheck b player r c = some t := by
  obtain ⟨v0, hv0⟩ := h0
  obtain ⟨v1, hv1⟩ := h1
  obtain ⟨v2, hv2⟩ := h2
  obtain ⟨v3, hv3⟩ := h3
  unfold tdCheck
  rw [hv0, hv1]
  simp only [Option.some_bind]
  by_cases e01 : v0 ≠ v1
  · rw [if_pos e01]; exact ⟨false, rfl⟩
  · rw [if_neg e01, hv2]
    simp only [Option.some_bind]
    by_cases e12 : v1 ≠ v2
    · rw [if_pos e12]; exact ⟨false, rfl⟩
    · rw [if_neg e12, hv3]
      simp only [Option.some_bind]
      exact ⟨_, rfl⟩

lemma buCheck_some {b : Board} {player : Nat} {r c : Int}
    (h0 : ∃ v, bget? b r c = some v)
    (h1 : ∃ v, bget? b (r - 1) (c + 1) = some v)
    (h2 : ∃ v, bget? b (r - 2) (c + 2) = some v)
    (h3 : ∃ v, bget? b (r - 3) (c + 3) = some v) :
    ∃ t, buCheck b player r c = some t := by
  obtain ⟨v0, hv0⟩ := h0
  obtain ⟨v1, hv1⟩ := h1
  obtain ⟨v2, hv2⟩ := h2
  obtain ⟨v3, hv3⟩ := h3
  unfold buCheck
  rw [hv0, hv1]
  simp only [Option.some_bind]
  by_cases e01 : v0 ≠ v1
  · rw [if_pos e01]; exact ⟨false, rfl⟩
  · rw [if_neg e01, hv2]
    simp only [Option.some_bind]
    by_cases e12 : v1 ≠ v2
    · rw [if_pos e12]; exact ⟨false, rfl⟩
    · rw [if_neg e12, hv3]
      simp only [Option.some_bind]
      exact ⟨_, rfl⟩

lemma tdAnchors_mem_bounds {rows cols : Nat} {rc : Int × Int}
    (h : rc ∈ tdAnchors rows cols 4) :
    0 ≤ rc.1 ∧ rc.1 + 3 < (rows : Int) ∧ 0 ≤ rc.2 ∧ rc.2 + 3 < (cols : Int) := by
  unfold tdAnchors at h
  rw [List.mem_flatMap] at h
  obtain ⟨c, hc, h⟩ := h
  rw [List.mem_map] at h
  obtain ⟨r, hr, rfl⟩ := h
  have h1 := mem_intRange hc
  have h2 := mem_intRange hr
  dsimp only
  refine ⟨by omega, by omega, by omega, by omega⟩

lemma buAnchors_mem_bounds {rows cols : Nat} {rc : Int × Int} (h3 : 3 ≤ rows)
    (h : rc ∈ buAnchors rows cols 4) :
    -(rows : Int) ≤ rc.1 - 3 ∧ 0 ≤ rc.1 ∧ rc.1 < (rows : Int)
      ∧ 0 ≤ rc.2 ∧ rc.2 + 3 < (cols : Int) ∧ (rows : Int) - 3 ≤ rc.1 := by
  unfold buAnchors at h
  rw [List.mem_flatMap] at h
  obtain ⟨c, hc, h⟩ := h
  rw [List.mem_map] at h
  obtain ⟨r, hr, rfl⟩ := h
  have h1 := mem_intRange hc
  have h2 := mem_intRange hr
  dsimp only
  refine ⟨by omega, by omega, by omega, by omega, by omega, by omega⟩

lemma is_horizontal_win_some {rows cols : Nat} {b : Board} {player : Nat}
    (wf : Wf rows cols b) {row : Int} (h0 : 0 ≤ row)
    (h1 : row < (rows : Int)) :
    ∃ t, is_horizontal_win cols 4 b row player = some t := by
  obtain ⟨m, hm⟩ := @scanLoop_some b player 4
    ((intRange 0 cols).map (fun c => (row, c)))
    (by
      intro rc hrc
      rw [List.mem_map] at hrc
      obtain ⟨c, hc, rfl⟩ := hrc
      have hcb := mem_intRange hc
      exact bget?_some wf row c (by omega) h1 (by omega) (by omega)) 0
  refine ⟨m == 4, ?_⟩
  unfold is_horizontal_win
  rw [hm]
  rfl

lemma is_vertical_win_some {rows cols : Nat} {b : Board} {player : Nat}
    (wf : Wf rows cols b) {col : Int} (h0 : 0 ≤ col)
    (h1 : col < (cols : Int)) :
    ∃ t, is_vertical_win rows 4 b col player = some t := by
  obtain ⟨m, hm⟩ := @scanLoop_some b player 4
    ((intRange 0 rows).map (fun r => (r, col)))
    (by
      intro rc hrc
      rw [List.mem_map] at hrc
      obtain ⟨r, hr, rfl⟩ := hrc
      have hrb := mem_intRange hr
      exact bget?_some wf r col (by omega) (by omega) (by omega) h1) 0
  refine ⟨decide (4 ≤ m), ?_⟩
  unfold is_vertical_win
  rw [hm]
  rfl

lemma is_diagonal_win_some {rows cols : Nat} {b : Board} {player : Nat}
    (wf : Wf rows cols b) (h3 : 3 ≤ rows) :
    ∃ t, is_diagonal_win rows cols 4 b player = some t := by
  obtain ⟨t1, ht1⟩ := firstTrue_some
    (fun rc => tdCheck b player rc.1 rc.2) (tdAnchors rows cols 4)
    (by
      intro rc hrc
      have hb := tdAnchors_mem_bounds hrc
      exact tdCheck_some
        (bget?_some wf _ _ (by omega) (by omega) (by omega) (by omega))
        (bget?_some wf _ _ (by omega) (by omega) (by omega) (by omega))
        (bget?_some wf _ _ (by omega) (by omega) (by omega) (by omega))
        (bget?_some wf _ _ (by omega) (by omega) (by omega) (by omega)))
  obtain ⟨t2, ht2⟩ := firstTrue_some
    (fun rc => buCheck b player rc.1 rc.2) (buAnchors rows cols 4)
    (by
      intro rc hrc
      have hb := buAnchors_mem_bounds h3 hrc
      exact buCheck_some
        (bget?_some wf _ _ (by omega) (by omega) (by omega) (by omega))
        (bget?_some wf _ _ (by omega) (by omega) (by omega) (by omega))
        (bget?_some wf _ _ (by omega) (by omega) (by omega) (by omega))
        (bget?_some wf _ _ (by omega) (by omega) (by omega) (by omega)))
  unfold is_diagonal_win
  rw [ht1]
  simp only [Option.some_bind]
  by_cases htt : t1 = true
  · rw [if_pos htt]; exact ⟨true, rfl⟩
  · rw [if_neg htt]; exact ⟨t2, ht2⟩

lemma is_winning_move_some {rows cols : Nat} {b : Board} {player : Nat}
    {row col : Int} (wf : Wf rows cols b) (h3 : 3 ≤ rows)
    (hr0 : 0 ≤ row) (hr1 : row < (rows : Int))
    (hc0 : 0 ≤ col) (hc1 : col < (cols : Int)) :
    ∃ t, is_winning_move rows cols 4 b row col player = some t := by
  obtain ⟨th, hh⟩ := @is_horizontal_win_some rows cols b player wf row hr0 hr1
  obtain ⟨tv, hv⟩ := @is_vertical_win_some rows cols b player wf col hc0 hc1
  obtain ⟨td, hd⟩ := @is_diagonal_win_some rows cols b player wf h3
  unfold is_winning_move
  rw [hh]
  simp only [Option.some_bind]
  by_cases hth : th = true
  · rw [if_pos hth]; exact ⟨true, rfl⟩
  · rw [if_neg hth, hv]
    simp only [Option.some_bind]
    by_cases htv : tv = true
    · rw [if_pos htv]; exact ⟨true, rfl⟩
    · rw [if_neg htv]; exact ⟨td, hd⟩

/-!  ## Last-move win check versus the full-board scan  -/

lemma getD_set_self2 {α : Type} (d : α) :
    ∀ (l : List α) (i : Nat) (v : α), i < l.length →
      (l.set i v).getD i d = v := by
  intro l
  induction l with
  | nil => intro i v h; simp at h
  | cons x xs ih =>
    intro i v h
    cases i with
    | zero => rfl
    | succ j => simpa [List.getD] using ih j v (by simpa using h)

lemma getD_set_ne2 {α : Type} (d : α) :
    ∀ (l : List α) (i j : Nat) (v : α), i ≠ j →
      (l.set i v).getD j d = l.getD j d := by
  intro l
  induction l with
  | nil => intro i j v _; simp
  | cons x xs ih =>
    intro i j v h
    cases i with
    | zero =>
      cases j with
      | zero => exact absurd rfl h
      | succ j2 => simp [List.getD]
    | succ i2 =>
      cases j with
      | zero => rfl
      | succ j2 => simpa [List.getD] using ih i2 j2 v (by omega)

lemma set_length_le {α : Type} :
    ∀ (l : List α) (i : Nat) (v : α), l.length ≤ i → l.set i v = l := by
  intro l
  induction l with
  | nil => intro i v _; rfl
  | cons x xs ih =>
    intro i v h
    cases i with
    | zero => simp at h
    | succ j =>
      show x :: xs.set j v = x :: xs
      rw [ih j v (by simpa using h)]

lemma cellD_setCell_ne {b : Board} {r c v r2 c2 : Nat}
    (h : ¬ (r2 = r ∧ c2 = c)) :
    cellD (setCell b r c v) r2 c2 = cellD b r2 c2 := by
  unfold cellD setCell
  by_cases hr : r2 = r
  · subst hr
    have hc : c2 ≠ c := fun e => h ⟨rfl, e⟩
    by_cases hlen : r2 < b.length
    · rw [getD_set_self2 [] b r2 _ hlen]
      exact getD_set_ne2 0 _ c c2 v (fun e => hc e.symm)
    · rw [set_length_le b r2 _ (by omega)]
  · rw [getD_set_ne2 [] b r r2 _ (fun e => hr e.symm)]

lemma getD_map_range {α : Type} (f : Nat → α) (d : α) {m k : Nat}
    (h : k < m) :
    ((List.range m).map f).getD k d = f k := by
  rw [List.getD_eq_getElem?_getD, List.getElem?_map, List.getElem?_range h]
  rfl

lemma mem_intRange_of {a c i : Int} (h1 : a ≤ i) (h2 : i < c) :
    i ∈ intRange a c := by
  unfold intRange
  rw [List.mem_map]
  refine ⟨(i - a).toNat, by rw [List.mem_range]; omega, by omega⟩

lemma intRange_zero (m : Nat) :
    intRange 0 m = (List.range m).map (fun (i : Nat) => (i : Int)) := by
  unfold intRange
  simp

lemma mem_allIdx {rows cols : Nat} {rc : Nat × Nat} :
    rc ∈ allIdx rows cols ↔ rc.1 < rows ∧ rc.2 < cols := by
  unfold allIdx
  rw [List.mem_flatMap]
  constructor
  · rintro ⟨r, hr, h⟩
    rw [List.mem_map] at h
    obtain ⟨c, hc, rfl⟩ := h
    rw [List.mem_range] at hr hc
    exact ⟨hr, hc⟩
  · rintro ⟨h1, h2⟩
    refine ⟨rc.1, by rw [List.mem_range]; exact h1, ?_⟩
    rw [List.mem_map]
    exact ⟨rc.2, by rw [List.mem_range]; exact h2, by simp⟩

lemma scanAux_le {p n : Nat} :
    ∀ (vals : List Nat) (k : Nat), k < n → scanAux p n vals k ≤ n := by
  intro vals
  induction vals with
  | nil => intro k hk; unfold scanAux; omega
  | cons v rest ih =>
    intro k hk
    unfold scanAux
    by_cases hv : v = p
    · rw [if_pos hv]
      by_cases hkn : k + 1 = n
      · rw [if_pos hkn]
      · rw [if_neg hkn]
        exact ih (k + 1) (by omega)
    · rw [if_neg hv]
      exact ih 0 (by omega)

lemma leadRun_le_length {p : Nat} :
    ∀ vals : List Nat, leadRun p vals ≤ vals.length := by
  intro vals
  induction vals with
  | nil => exact Nat.le_refl 0
  | cons v rest ih =>
    unfold leadRun
    by_cases hv : v = p
    · rw [if_pos hv]
      simp only [List.length_cons]
      omega
    · rw [if_neg hv]
      simp

lemma leadRun_head {p : Nat} :
    ∀ (vals : List Nat) (j : Nat), j < leadRun p vals →
      vals.getD j 0 = p := by
  intro vals
  induction vals with
  | nil => intro j hj; simp [leadRun] at hj
  | cons v rest ih =>
    intro j hj
    unfold leadRun at hj
    by_cases hv : v = p
    · rw [if_pos hv] at hj
      cases j with
      | zero => simpa using hv
      | succ j2 => simpa using ih j2 (by omega)
    · rw [if_neg hv] at hj
      omega

lemma leadRun_ge {p : Nat} :
    ∀ (vals : List Nat) (m : Nat), m ≤ vals.length →
      (∀ j, j < m → vals.getD j 0 = p) → m ≤ leadRun p vals := by
  intro vals
  induction vals with
  | nil => intro m hm _; simpa [leadRun] using hm
  | cons v rest ih =>
    intro m hm hj
    cases m with
    | zero => omega
    | succ m2 =>
      have h0 := hj 0 (by omega)
      simp only [List.getD_cons_zero] at h0
      unfold leadRun
      rw [if_pos h0]
      have h2 := ih m2 (by simpa using hm) (fun j hjm => by
        have h3 := hj (j + 1) (by omega)
        simpa using h3)
      omega

lemma scanAux_complete {p n : Nat} :
    ∀ (vals : List Nat) (k : Nat), k < n →
      (hasWinLine p n vals ∨ n ≤ k + leadRun p vals) →
      scanAux p n vals k = n := by
  intro vals
  induction vals with
  | nil =>
    intro k hk h
    rcases h with ⟨i, hi, _⟩ | h
    · simp at hi; omega
    · simp [leadRun] at h; omega
  | cons v rest ih =>
    intro k hk h
    unfold scanAux
    by_cases hv : v = p
    · rw [if_pos hv]
      by_cases hkn : k + 1 = n
      · rw [if_pos hkn]
      · rw [if_neg hkn]
        apply ih (k + 1) (by omega)
        rcases h with ⟨i, hi, hrun⟩ | hlead
        · cases i with
          | zero =>
            right
            have hlen : n - 1 ≤ rest.length := by
              simp only [List.length_cons] at hi
              omega
            have hlr : n - 1 ≤ leadRun p rest := by
              apply leadRun_ge rest (n - 1) hlen
              intro j hjm
              have h2 := hrun (j + 1) (by omega)
              simpa using h2
            omega
          | succ i2 =>
            left
            refine ⟨i2, by simp only [List.length_cons] at hi; omega,
              fun j hj => ?_⟩
            have h2 := hrun j hj
            rw [(by omega : i2 + 1 + j = (i2 + j) + 1)] at h2
            simpa using h2
        · right
          unfold leadRun at hlead
          rw [if_pos hv] at hlead
          omega
    · rw [if_neg hv]
      apply ih 0 (by omega)
      rcases h with ⟨i, hi, hrun⟩ | hlead
      · cases i with
        | zero =>
          exfalso
          have h2 := hrun 0 (by omega)
          simp only [Nat.add_zero, List.getD_cons_zero] at h2
          exact hv h2
        | succ i2 =>
          left
          refine ⟨i2, by simp only [List.length_cons] at hi; omega,
            fun j hj => ?_⟩
          have h2 := hrun j hj
          rw [(by omega : i2 + 1 + j = (i2 + j) + 1)] at h2
          simpa using h2
      · exfalso
        unfold leadRun at hlead
        rw [if_neg hv] at hlead
        omega

lemma scanAux_sound {p n : Nat} :
    ∀ (vals : List Nat) (k : Nat), k < n → scanAux p n vals k = n →
      hasWinLine p n vals ∨ n ≤ k + leadRun p vals := by
  intro vals
  induction vals with
  | nil =>
    intro k hk h
    exfalso
    unfold scanAux at h
    omega
  | cons v rest ih =>
    intro k hk h
    unfold scanAux at h
    by_cases hv : v = p
    · rw [if_pos hv] at h
      by_cases hkn : k + 1 = n
      · right
        unfold leadRun
        rw [if_pos hv]
        omega
      · rw [if_neg hkn] at h
        rcases ih (k + 1) (by omega) h with hwin | hlead
        · left
          obtain ⟨i, hi, hrun⟩ := hwin
          refine ⟨i + 1, by simp only [List.length_cons]; omega,
            fun j hj => ?_⟩
          have h2 := hrun j hj
          rw [(by omega : i + 1 + j = (i + j) + 1)]
          simpa using h2
        · right
          unfold leadRun
          rw [if_pos hv]
          omega
    · rw [if_neg hv] at h
      rcases ih 0 (by omega) h with hwin | hlead
      · left
        obtain ⟨i, hi, hrun⟩ := hwin
        refine ⟨i + 1, by simp only [List.length_cons]; omega,
          fun j hj => ?_⟩
        have h2 := hrun j hj
        rw [(by omega : i + 1 + j = (i + j) + 1)]
        simpa using h2
      · left
        have hlen := @leadRun_le_length p rest
        refine ⟨1, by simp only [List.length_cons]; omega, fun j hj => ?_⟩
        have h2 := @leadRun_head p rest j (by omega)
        rw [(by omega : 1 + j = j + 1)]
        simpa using h2

lemma scanAux_eq_n_iff {p n : Nat} (hn : 0 < n) (vals : List Nat) :
    scanAux p n vals 0 = n ↔ hasWinLine p n vals := by
  constructor
  · intro h
    rcases scanAux_sound vals 0 hn h with hwin | hlead
    · exact hwin
    · have hlen := @leadRun_le_length p vals
      refine ⟨0, by omega, fun j hj => ?_⟩
      have h2 := @leadRun_head p vals j (by omega)
      simpa using h2
  · intro h
    exact scanAux_complete vals 0 hn (Or.inl h)

lemma scanLoop_eq_scanAux {b : Board} {p n : Nat}
    {cells : List (Int × Int)} {vals : List Nat}
    (h : List.Forall₂ (fun rc v => bget? b rc.1 rc.2 = some v) cells vals) :
    ∀ k, scanLoop b p n cells k = some (scanAux p n vals k) := by
  induction h with
  | nil => intro k; rfl
  | @cons rc v cs vs h1 h2 ih =>
    intro k
    unfold scanLoop scanAux
    rw [h1]
    simp only [Option.some_bind]
    by_cases hv : v = p
    · rw [if_pos hv, if_pos hv]
      by_cases hkn : k + 1 = n
      · rw [if_pos hkn, if_pos hkn, hkn]
      · rw [if_neg hkn, if_neg hkn]
        exact ih (k + 1)
    · rw [if_neg hv, if_neg hv]
      exact ih 0

lemma row_forall₂ {rows cols : Nat} {b : Board} (wf : Wf rows cols b)
    {r : Nat} (hr : r < rows) :
    List.Forall₂ (fun rc v => bget? b rc.1 rc.2 = some v)
      ((intRange 0 cols).map (fun c => ((r : Int), c)))
      ((List.range cols).map (fun c => cellD b r c)) := by
  rw [intRange_zero, List.map_map]
  rw [List.forall₂_map_left_iff, List.forall₂_map_right_iff]
  rw [List.forall₂_same]
  intro c hc
  rw [List.mem_range] at hc
  have h := bget?_eq_cell wf r c (by omega) (by omega) (by omega) (by omega)
  simpa using h

lemma col_forall₂ {rows cols : Nat} {b : Board} (wf : Wf rows cols b)
    {c : Nat} (hc : c < cols) :
    List.Forall₂ (fun rc v => bget? b rc.1 rc.2 = some v)
      ((intRange 0 rows).map (fun r => (r, (c : Int))))
      ((List.range rows).map (fun r => cellD b r c)) := by
  rw [intRange_zero, List.map_map]
  rw [List.forall₂_map_left_iff, List.forall₂_map_right_iff]
  rw [List.forall₂_same]
  intro r hr
  rw [List.mem_range] at hr
  have h := bget?_eq_cell wf r c (by omega) (by omega) (by omega) (by omega)
  simpa using h

lemma is_horizontal_win_eval {rows cols : Nat} {b : Board} {p : Nat}
    (wf : Wf rows cols b) {r : Nat} (hr : r < rows) :
    is_horizontal_win cols 4 b (r : Int) p
      = some (scanAux p 4 ((List.range cols).map (fun c => cellD b r c)) 0
          == 4) := by
  unfold is_horizontal_win
  rw [scanLoop_eq_scanAux (row_forall₂ wf hr) 0]
  rfl

lemma is_vertical_win_eval {rows cols : Nat} {b : Board} {p : Nat}
    (wf : Wf rows cols b) {c : Nat} (hc : c < cols) :
    is_vertical_win rows 4 b (c : Int) p
      = some (decide (4 ≤
          scanAux p 4 ((List.range rows).map (fun r => cellD b r c)) 0)) := by
  unfold is_vertical_win
  rw [scanLoop_eq_scanAux (col_forall₂ wf hc) 0]
  rfl

lemma winAllP_winH_iff {b : Board} {p a1 a2 n : Nat} :
    winAllP b p (winH a1 a2 n) = true
      ↔ ∀ j < n, cellD b a1 (a2 + j) = p := by
  unfold winAllP winH
  rw [List.all_eq_true]
  constructor
  · intro h j hj
    have h2 := h (a1, a2 + j) (by
      rw [List.mem_map]
      exact ⟨j, by rw [List.mem_range]; exact hj, rfl⟩)
    simpa using h2
  · intro h x hx
    rw [List.mem_map] at hx
    obtain ⟨j, hj, rfl⟩ := hx
    rw [List.mem_range] at hj
    simpa using h j hj

lemma winAllP_winV_iff {b : Board} {p a1 a2 n : Nat} :
    winAllP b p (winV a1 a2 n) = true
      ↔ ∀ j < n, cellD b (a1 + j) a2 = p := by
  unfold winAllP winV
  rw [List.all_eq_true]
  constructor
  · intro h j hj
    have h2 := h (a1 + j, a2) (by
      rw [List.mem_map]
      exact ⟨j, by rw [List.mem_range]; exact hj, rfl⟩)
    simpa using h2
  · intro h x hx
    rw [List.mem_map] at hx
    obtain ⟨j, hj, rfl⟩ := hx
    rw [List.mem_range] at hj
    simpa using h j hj

lemma winAllP_winD_iff {b : Board} {p a1 a2 n : Nat} :
    winAllP b p (winD a1 a2 n) = true
      ↔ ∀ j < n, cellD b (a1 + j) (a2 + j) = p := by
  unfold winAllP winD
  rw [List.all_eq_true]
  constructor
  · intro h j hj
    have h2 := h (a1 + j, a2 + j) (by
      rw [List.mem_map]
      exact ⟨j, by rw [List.mem_range]; exact hj, rfl⟩)
    simpa using h2
  · intro h x hx
    rw [List.mem_map] at hx
    obtain ⟨j, hj, rfl⟩ := hx
    rw [List.mem_range] at hj
    simpa using h j hj

lemma winAllP_winA_iff {b : Board} {p a1 a2 n : Nat} :
    winAllP b p (winA a1 a2 n) = true
      ↔ ∀ j < n, cellD b (a1 + j) (a2 - j) = p := by
  unfold winAllP winA
  rw [List.all_eq_true]
  constructor
  · intro h j hj
    have h2 := h (a1 + j, a2 - j) (by
      rw [List.mem_map]
      exact ⟨j, by rw [List.mem_range]; exact hj, rfl⟩)
    simpa using h2
  · intro h x hx
    rw [List.mem_map] at hx
    obtain ⟨j, hj, rfl⟩ := hx
    rw [List.mem_range] at hj
    simpa using h j hj

lemma hasWinLine_row_iff {cols : Nat} {b : Board} {p r : Nat} :
    hasWinLine p 4 ((List.range cols).map (fun c => cellD b r c))
      ↔ ∃ c, c + 4 ≤ cols ∧ winAllP b p (winH r c 4) = true := by
  constructor
  · rintro ⟨i, hi, hrun⟩
    rw [List.length_map, List.length_range] at hi
    refine ⟨i, hi, ?_⟩
    rw [winAllP_winH_iff]
    intro j hj
    have h2 := hrun j hj
    rw [getD_map_range _ _ (by omega)] at h2
    exact h2
  · rintro ⟨c, hc, hall⟩
    rw [winAllP_winH_iff] at hall
    refine ⟨c, by rw [List.length_map, List.length_range]; omega,
      fun j hj => ?_⟩
    rw [getD_map_range _ _ (by omega)]
    exact hall j hj

lemma hasWinLine_col_iff {rows : Nat} {b : Board} {p c : Nat} :
    hasWinLine p 4 ((List.range rows).map (fun r => cellD b r c))
      ↔ ∃ r0, r0 + 4 ≤ rows ∧ winAllP b p (winV r0 c 4) = true := by
  constructor
  · rintro ⟨i, hi, hrun⟩
    rw [List.length_map, List.length_range] at hi
    refine ⟨i, hi, ?_⟩
    rw [winAllP_winV_iff]
    intro j hj
    have h2 := hrun j hj
    rw [getD_map_range _ _ (by omega)] at h2
    exact h2
  · rintro ⟨r0, hr0, hall⟩
    rw [winAllP_winV_iff] at hall
    refine ⟨r0, by rw [List.length_map, List.length_range]; omega,
      fun j hj => ?_⟩
    rw [getD_map_range _ _ (by omega)]
    exact hall j hj

lemma hasWonFull_of_winH {rows cols n : Nat} {b : Board} {p a1 a2 : Nat}
    (h1 : a1 < rows) (h2 : a2 < cols) (h3 : a2 + n ≤ cols)
    (hall : winAllP b p (winH a1 a2 n) = true) :
    hasWonFull rows cols n b p = true := by
  unfold hasWonFull
  rw [Bool.or_eq_true, Bool.or_eq_true]
  left; left
  rw [List.any_eq_true]
  refine ⟨(a1, a2), mem_allIdx.mpr ⟨h1, h2⟩, ?_⟩
  rw [Bool.and_eq_true, decide_eq_true_iff]
  exact ⟨h3, hall⟩

lemma hasWonFull_of_winV {rows cols n : Nat} {b : Board} {p a1 a2 : Nat}
    (h1 : a1 < rows) (h2 : a2 < cols) (h3 : a1 + n ≤ rows)
    (hall : winAllP b p (winV a1 a2 n) = true) :
    hasWonFull rows cols n b p = true := by
  unfold hasWonFull
  rw [Bool.or_eq_true, Bool.or_eq_true]
  left; right
  rw [List.any_eq_true]
  refine ⟨(a1, a2), mem_allIdx.mpr ⟨h1, h2⟩, ?_⟩
  rw [Bool.and_eq_true, decide_eq_true_iff]
  exact ⟨h3, hall⟩

lemma hasWonFull_of_diag {rows cols n : Nat} {b : Board} {p : Nat}
    (h : diagWinSpec rows cols n b p = true) :
    hasWonFull rows cols n b p = true := by
  unfold hasWonFull
  rw [h]
  simp

lemma hasWonFull_cases {rows cols n : Nat} {b : Board} {p : Nat}
    (h : hasWonFull rows cols n b p = true) :
    (∃ a : Nat × Nat, a.1 < rows ∧ a.2 < cols ∧ a.2 + n ≤ cols
        ∧ winAllP b p (winH a.1 a.2 n) = true)
    ∨ (∃ a : Nat × Nat, a.1 < rows ∧ a.2 < cols ∧ a.1 + n ≤ rows
        ∧ winAllP b p (winV a.1 a.2 n) = true)
    ∨ diagWinSpec rows cols n b p = true := by
  unfold hasWonFull at h
  rw [Bool.or_eq_true, Bool.or_eq_true] at h
  rcases h with (h | h) | h
  · left
    rw [List.any_eq_true] at h
    obtain ⟨a, ha, h⟩ := h
    rw [Bool.and_eq_true, decide_eq_true_iff] at h
    have hidx := mem_allIdx.mp ha
    exact ⟨a, hidx.1, hidx.2, h.1, h.2⟩
  · right; left
    rw [List.any_eq_true] at h
    obtain ⟨a, ha, h⟩ := h
    rw [Bool.and_eq_true, decide_eq_true_iff] at h
    have hidx := mem_allIdx.mp ha
    exact ⟨a, hidx.1, hidx.2, h.1, h.2⟩
  · right; right
    exact h

lemma winAll_not_erased {b : Board} {p rn cn : Nat} {w : List (Nat × Nat)}
    (hall : winAllP b p w = true)
    (herased : winAllP (setCell b rn cn 0) p w = false) :
    (rn, cn) ∈ w := by
  by_contra hmem
  have h2 : winAllP (setCell b rn cn 0) p w = true := by
    unfold winAllP at hall ⊢
    rw [List.all_eq_true] at hall ⊢
    intro x hx
    have hne : ¬ (x.1 = rn ∧ x.2 = cn) := by
      rintro ⟨e1, e2⟩
      apply hmem
      have hx2 : (x.1, x.2) = (rn, cn) := by rw [e1, e2]
      rw [← hx2]
      simpa using hx
    rw [cellD_setCell_ne hne]
    exact hall x hx
  rw [h2] at herased
  exact Bool.noConfusion herased

lemma tdCheck_true_iff {rows cols : Nat} {b : Board} {p : Nat}
    (wf : Wf rows cols b) {r c : Int}
    (hr0 : 0 ≤ r) (hr1 : r + 3 < rows) (hc0 : 0 ≤ c) (hc1 : c + 3 < cols) :
    (tdCheck b p r c = some true
      ↔ ∀ j < 4, cellD b (r.toNat + j) (c.toNat + j) = p) := by
  unfold tdCheck
  rw [bget?_eq_cell wf r c hr0 (by omega) hc0 (by omega),
      bget?_eq_cell wf (r + 1) (c + 1) (by omega) (by omega) (by omega)
        (by omega),
      bget?_eq_cell wf (r + 2) (c + 2) (by omega) (by omega) (by omega)
        (by omega),
      bget?_eq_cell wf (r + 3) (c + 3) (by omega) (by omega) (by omega)
        (by omega)]
  simp only [Option.some_bind]
  rw [(by omega : (r + 1).toNat = r.toNat + 1),
      (by omega : (r + 2).toNat = r.toNat + 2),
      (by omega : (r + 3).toNat = r.toNat + 3),
      (by omega : (c + 1).toNat = c.toNat + 1),
      (by omega : (c + 2).toNat = c.toNat + 2),
      (by omega : (c + 3).toNat = c.toNat + 3)]
  constructor
  · intro h
    by_cases h01 : cellD b r.toNat c.toNat
        ≠ cellD b (r.toNat + 1) (c.toNat + 1)
    · rw [if_pos h01] at h
      simp at h
    · rw [if_neg h01] at h
      by_cases h12 : cellD b (r.toNat + 1) (c.toNat + 1)
          ≠ cellD b (r.toNat + 2) (c.toNat + 2)
      · rw [if_pos h12] at h
        simp at h
      · rw [if_neg h12] at h
        rw [Option.some_inj, Bool.and_eq_true, beq_iff_eq, beq_iff_eq] at h
        push_neg at h01 h12
        intro j hj
        interval_cases j
        · simp only [Nat.add_zero]
          exact h01.trans (h12.trans (h.1.trans h.2))
        · exact h12.trans (h.1.trans h.2)
        · exact h.1.trans h.2
        · exact h.2
  · intro h
    have h0 := h 0 (by omega)
    have h1 := h 1 (by omega)
    have h2 := h 2 (by omega)
    have h3 := h 3 (by omega)
    simp only [Nat.add_zero] at h0
    rw [if_neg (by rw [h0, h1]; simp), if_neg (by rw [h1, h2]; simp)]
    rw [h2, h3]
    simp

lemma buCheck_true_iff {rows cols : Nat} {b : Board} {p : Nat}
    (wf : Wf rows cols b) {r c : Int}
    (hr3 : 3 ≤ r) (hr1 : r < rows) (hc0 : 0 ≤ c) (hc1 : c + 3 < cols) :
    (buCheck b p r c = some true
      ↔ ∀ j < 4, cellD b (r.toNat - j) (c.toNat + j) = p) := by
  unfold buCheck
  rw [bget?_eq_cell wf r c (by omega) (by omega) hc0 (by omega),
      bget?_eq_cell wf (r - 1) (c + 1) (by omega) (by omega) (by omega)
        (by omega),
      bget?_eq_cell wf (r - 2) (c + 2) (by omega) (by omega) (by omega)
        (by omega),
      bget?_eq_cell wf (r - 3) (c + 3) (by omega) (by omega) (by omega)
        (by omega)]
  simp only [Option.some_bind]
  rw [(by omega : (r - 1).toNat = r.toNat - 1),
      (by omega : (r - 2).toNat = r.toNat - 2),
      (by omega : (r - 3).toNat = r.toNat - 3),
      (by omega : (c + 1).toNat = c.toNat + 1),
      (by omega : (c + 2).toNat = c.toNat + 2),
      (by omega : (c + 3).toNat = c.toNat + 3)]
  constructor
  · intro h
    by_cases h01 : cellD b r.toNat c.toNat
        ≠ cellD b (r.toNat - 1) (c.toNat + 1)
    · rw [if_pos h01] at h
      simp at h
    · rw [if_neg h01] at h
      by_cases h12 : cellD b (r.toNat - 1) (c.toNat + 1)
          ≠ cellD b (r.toNat - 2) (c.toNat + 2)
      · rw [if_pos h12] at h
        simp at h
      · rw [if_neg h12] at h
        rw [Option.some_inj, Bool.and_eq_true, beq_iff_eq, beq_iff_eq] at h
        push_neg at h01 h12
        intro j hj
        interval_cases j
        · simp only [Nat.sub_zero, Nat.add_zero]
          exact h01.trans (h12.trans (h.1.trans h.2))
        · exact h12.trans (h.1.trans h.2)
        · exact h.1.trans h.2
        · exact h.2
  · intro h
    have h0 := h 0 (by omega)
    have h1 := h 1 (by omega)
    have h2 := h 2 (by omega)
    have h3 := h 3 (by omega)
    simp only [Nat.sub_zero, Nat.add_zero] at h0
    rw [if_neg (by rw [h0, h1]; simp), if_neg (by rw [h1, h2]; simp)]
    rw [h2, h3]
    simp

lemma firstTrue_true_iff {α : Type} (f : α → Option Bool) :
    ∀ (xs : List α), (∀ x ∈ xs, ∃ t, f x = some t) →
      (firstTrue f xs = some true ↔ ∃ x ∈ xs, f x = some true) := by
  intro xs
  induction xs with
  | nil =>
    intro _
    constructor
    · intro h
      simp [firstTrue] at h
    · rintro ⟨x, hx, _⟩
      simp at hx
  | cons x rest ih =>
    intro h
    obtain ⟨t, ht⟩ := h x (by simp)
    unfold firstTrue
    rw [ht]
    simp only [Option.some_bind]
    by_cases htt : t = true
    · rw [if_pos htt]
      subst htt
      constructor
      · intro _
        exact ⟨x, by simp, ht⟩
      · intro _
        rfl
    · rw [if_neg htt]
      rw [ih (fun y hy => h y (by simp [hy]))]
      constructor
      · rintro ⟨y, hy, hfy⟩
        exact ⟨y, by simp [hy], hfy⟩
      · rintro ⟨y, hy, hfy⟩
        rcases (by simpa using hy : y = x ∨ y ∈ rest) with rfl | hy2
        · rw [ht] at hfy
          exact absurd (Option.some_inj.mp hfy) htt
        · exact ⟨y, hy2, hfy⟩

lemma tdAnchors_any_iff {cols : Nat} {b : Board} {p : Nat}
    (wf : Wf 6 cols b) :
    (∃ rc ∈ tdAnchors 6 cols 4, tdCheck b p rc.1 rc.2 = some true)
      ↔ ((allIdx 6 cols).any (fun rc =>
          decide (rc.1 + 4 ≤ 6) && decide (rc.2 + 4 ≤ cols)
            && winAllP b p (winD rc.1 rc.2 4)) = true) := by
  rw [List.any_eq_true]
  constructor
  · rintro ⟨rc, hmem, htrue⟩
    have hb := tdAnchors_mem_bounds hmem
    have hcells := (tdCheck_true_iff wf hb.1 (by omega) hb.2.2.1
      (by omega)).mp htrue
    refine ⟨(rc.1.toNat, rc.2.toNat), mem_allIdx.mpr ⟨by omega, by omega⟩, ?_⟩
    rw [Bool.and_eq_true, Bool.and_eq_true, decide_eq_true_iff,
      decide_eq_true_iff]
    refine ⟨⟨by omega, by omega⟩, ?_⟩
    rw [winAllP_winD_iff]
    exact hcells
  · rintro ⟨a, hmem, hcond⟩
    rw [Bool.and_eq_true, Bool.and_eq_true, decide_eq_true_iff,
      decide_eq_true_iff] at hcond
    obtain ⟨⟨hD1, hD2⟩, hallD⟩ := hcond
    have hidx := mem_allIdx.mp hmem
    refine ⟨((a.1 : Int), (a.2 : Int)), ?_, ?_⟩
    · unfold tdAnchors
      rw [List.mem_flatMap]
      refine ⟨(a.2 : Int), mem_intRange_of (by omega) (by omega), ?_⟩
      rw [List.mem_map]
      exact ⟨(a.1 : Int), mem_intRange_of (by omega) (by omega), rfl⟩
    · refine (tdCheck_true_iff wf (by omega) (by omega) (by omega)
        (by omega)).mpr ?_
      intro j hj
      have h2 := winAllP_winD_iff.mp hallD j hj
      simpa using h2

lemma buAnchors_any_iff {cols : Nat} {b : Board} {p : Nat}
    (wf : Wf 6 cols b) :
    (∃ rc ∈ buAnchors 6 cols 4, buCheck b p rc.1 rc.2 = some true)
      ↔ ((allIdx 6 cols).any (fun rc =>
          decide (rc.1 + 4 ≤ 6) && decide (4 ≤ rc.2 + 1)
            && winAllP b p (winA rc.1 rc.2 4)) = true) := by
  rw [List.any_eq_true]
  constructor
  · rintro ⟨rc, hmem, htrue⟩
    have hb := buAnchors_mem_bounds (by omega) hmem
    have hcells := (buCheck_true_iff wf (by omega) (by omega) (by omega)
      (by omega)).mp htrue
    refine ⟨(rc.1.toNat - 3, rc.2.toNat + 3),
      mem_allIdx.mpr ⟨by omega, by omega⟩, ?_⟩
    rw [Bool.and_eq_true, Bool.and_eq_true, decide_eq_true_iff,
      decide_eq_true_iff]
    refine ⟨⟨by omega, by omega⟩, ?_⟩
    rw [winAllP_winA_iff]
    intro j hj
    have h2 := hcells (3 - j) (by omega)
    rw [(by omega : rc.1.toNat - (3 - j) = rc.1.toNat - 3 + j),
      (by omega : rc.2.toNat + (3 - j) = rc.2.toNat + 3 - j)] at h2
    exact h2
  · rintro ⟨a, hmem, hcond⟩
    rw [Bool.and_eq_true, Bool.and_eq_true, decide_eq_true_iff,
      decide_eq_true_iff] at hcond
    obtain ⟨⟨hA1, hA2⟩, hallA⟩ := hcond
    have hidx := mem_allIdx.mp hmem
    refine ⟨((a.1 : Int) + 3, (a.2 : Int) - 3), ?_, ?_⟩
    · unfold buAnchors
      rw [List.mem_flatMap]
      refine ⟨(a.2 : Int) - 3, mem_intRange_of (by omega) (by omega), ?_⟩
      rw [List.mem_map]
      exact ⟨(a.1 : Int) + 3, mem_intRange_of (by omega) (by omega), rfl⟩
    · refine (buCheck_true_iff wf (by omega) (by omega) (by omega)
        (by omega)).mpr ?_
      intro j hj
      have h2 := winAllP_winA_iff.mp hallA (3 - j) (by omega)
      rw [(by omega : ((a.1 : Int) + 3).toNat - j = a.1 + (3 - j)),
        (by omega : ((a.2 : Int) - 3).toNat + j = a.2 - (3 - j))]
      exact h2

set_option maxHeartbeats 8000000 in
lemma is_diagonal_win_6_iff {cols : Nat} {b : Board} {p : Nat}
    (wf : Wf 6 cols b) :
    (is_diagonal_win 6 cols 4 b p = some true
      ↔ diagWinSpec 6 cols 4 b p = true) := by
  have htdtot : ∀ rc ∈ tdAnchors 6 cols 4,
      ∃ t, tdCheck b p rc.1 rc.2 = some t := by
    intro rc hrc
    have hb := tdAnchors_mem_bounds hrc
    exact tdCheck_some
      (bget?_some wf _ _ (by omega) (by omega) (by omega) (by omega))
      (bget?_some wf _ _ (by omega) (by omega) (by omega) (by omega))
      (bget?_some wf _ _ (by omega) (by omega) (by omega) (by omega))
      (bget?_some wf _ _ (by omega) (by omega) (by omega) (by omega))
  have hbutot : ∀ rc ∈ buAnchors 6 cols 4,
      ∃ t, buCheck b p rc.1 rc.2 = some t := by
    intro rc hrc
    have hb := buAnchors_mem_bounds (by omega) hrc
    exact buCheck_some
      (bget?_some wf _ _ (by omega) (by omega) (by omega) (by omega))
      (bget?_some wf _ _ (by omega) (by omega) (by omega) (by omega))
      (bget?_some wf _ _ (by omega) (by omega) (by omega) (by omega))
      (bget?_some wf _ _ (by omega) (by omega) (by omega) (by omega))
  obtain ⟨t1, ht1⟩ := firstTrue_some
    (fun rc => tdCheck b p rc.1 rc.2) (tdAnchors 6 cols 4) htdtot
  have htd1 := firstTrue_true_iff
    (fun rc => tdCheck b p rc.1 rc.2) (tdAnchors 6 cols 4) htdtot
  have hbu1 := firstTrue_true_iff
    (fun rc => buCheck b p rc.1 rc.2) (buAnchors 6 cols 4) hbutot
  unfold is_diagonal_win
  rw [ht1]
  simp only [Option.some_bind]
  unfold diagWinSpec
  cases t1 with
  | true =>
    rw [if_pos rfl]
    constructor
    · intro _
      rw [Bool.or_eq_true]
      left
      exact (tdAnchors_any_iff wf).mp (htd1.mp ht1)
    · intro _
      rfl
  | false =>
    rw [if_neg (by simp)]
    rw [hbu1, buAnchors_any_iff wf, Bool.or_eq_true]
    constructor
    · intro h
      right
      exact h
    · rintro (h | h)
      · exfalso
        have h2 := htd1.mpr ((tdAnchors_any_iff wf).mpr h)
        rw [ht1] at h2
        exact Bool.noConfusion (Option.some_inj.mp h2)
      · exact h

lemma is_winning_move_eval {rows cols n : Nat} {b : Board} {row col : Int}
    {p : Nat} {h v d : Bool}
    (hh : is_horizontal_win cols n b row p = some h)
    (hv : is_vertical_win rows n b col p = some v)
    (hd : is_diagonal_win rows cols n b p = some d) :
    is_winning_move rows cols n b row col p = some (h || v || d) := by
  unfold is_winning_move
  rw [hh]
  simp only [Option.some_bind]
  cases h with
  | true =>
    rw [if_pos rfl]
    rfl
  | false =>
    rw [if_neg (by simp), hv]
    simp only [Option.some_bind]
    cases v with
    | true =>
      rw [if_pos rfl]
      rfl
    | false =>
      rw [if_neg (by simp), hd]
      rfl

/-!  ## Claim theorems  -/

/-- Claim C1: the claim says a search node whose board already contains a
run of n_to_win pieces ends recursion immediately, expands no child, and
returns a dominant score.  The code has no terminal check (the source
marks this with a TODO), and this theorem evaluates it at a failing
input: on a one-row board [[1,1,1,1,0]] already won by player 1, the
tree generated for the searching agent (player 2) still expands a child
below the won root, and minimax backs up the heuristic value -200 of the
child rather than a dominant negative score. -/
theorem C1_no_terminal_cutoff :
    hasWonFull 1 5 4 bRow15 1 = true
    ∧ (generate_tree 1 5 ⟨bRow15, 1, none⟩ 2 5).children.length = 1
    ∧ minimax 1 5 4 2 (generate_tree 1 5 ⟨bRow15, 1, none⟩ 2 5) 0
        = some (-200, 0) := by
  refine ⟨by decide, rfl, rfl⟩

/-- Claim C2, counterexample: the claim says tied optimal children are
chosen uniformly at random, so a tied child other than the first could be
selected.  minimax is a pure function with no randomness: on a root whose
two children both evaluate to 0 (a tie at a maximizing node) it returns
child index 0, and never child index 1. -/
theorem C2_tie_break_counterexample :
    minimax 1 4 4 1 (.node ⟨[[1, 0, 0, 0]], 3, some (0, 0)⟩ []) 1
        = some (0, -1)
    ∧ minimax 1 4 4 1 (.node ⟨[[0, 1, 0, 0]], 3, some (0, 1)⟩ []) 1
        = some (0, -1)
    ∧ minimax 1 4 4 1 tTie 0 = some (0, 0)
    ∧ minimax 1 4 4 1 tTie 0 ≠ some (0, 1) := by
  refine ⟨rfl, rfl, rfl, by decide⟩

/-- Claim C2, amended: when two or more children of a search node share
the optimal backed-up score (minimum at an odd-depth node, maximum at an
even-depth node), minimax deterministically selects the first tied child
in expansion order, not a uniformly random one; when exactly one child
attains the optimum that child is selected.  Formally: at a node whose
children evaluate to v0 :: vs, minimax returns the min or max of the
values by depth parity together with the index of its first occurrence,
an index no earlier occurrence matches. -/
theorem C2_first_tied_child (rows cols n sp depth : Nat) (st : StateL)
    (c : GTree) (cs : List GTree) (v0 : Int) (vs : List Int)
    (h : minimaxVals rows cols n sp (c :: cs) (depth + 1) = some (v0 :: vs)) :
    ∃ i : Nat,
      minimax rows cols n sp (.node st (c :: cs)) depth
        = some ((if depth % 2 = 1 then vs.foldl min v0 else vs.foldl max v0),
                (i : Int))
      ∧ (v0 :: vs).getD i 0
          = (if depth % 2 = 1 then vs.foldl min v0 else vs.foldl max v0)
      ∧ (∀ k, k < i → (v0 :: vs).getD k 0
          ≠ (if depth % 2 = 1 then vs.foldl min v0 else vs.foldl max v0))
      ∧ (∀ x ∈ v0 :: vs,
          if depth % 2 = 1 then vs.foldl min v0 ≤ x
          else x ≤ vs.foldl max v0) := by
  by_cases hd : depth % 2 = 1
  · obtain ⟨i, hi⟩ := list_index_mem (v0 :: vs) _ (foldl_min_mem vs v0)
    obtain ⟨h1, h2, h3⟩ := list_index_spec _ _ _ hi
    refine ⟨i, ?_, by simpa [hd] using h2, ?_, ?_⟩
    · simp [minimax, h, hd, hi]
    · intro k hk
      simpa [hd] using h3 k hk
    · intro x hx
      simp only [hd, if_true]
      rcases List.mem_cons.mp hx with h' | h'
      · rw [h']; exact foldl_min_le_init vs v0
      · exact foldl_min_le_mem vs v0 x h'
  · obtain ⟨i, hi⟩ := list_index_mem (v0 :: vs) _ (foldl_max_mem vs v0)
    obtain ⟨h1, h2, h3⟩ := list_index_spec _ _ _ hi
    refine ⟨i, ?_, by simpa [hd] using h2, ?_, ?_⟩
    · simp [minimax, h, hd, hi]
    · intro k hk
      simpa [hd] using h3 k hk
    · intro x hx
      simp only [hd, if_false]
      rcases List.mem_cons.mp hx with h' | h'
      · rw [h']; exact foldl_max_le_init vs v0
      · exact foldl_max_le_mem vs v0 x h'

/-- Claim C2, witness: the amended theorem applied to the concrete tied
tree tTie, whose two children both score 0 at the maximizing root. -/
theorem C2_first_tied_child_witness :
    minimaxVals 1 4 4 1
      [.node ⟨[[1, 0, 0, 0]], 3, some (0, 0)⟩ [],
       .node ⟨[[0, 1, 0, 0]], 3, some (0, 1)⟩ []] 1 = some [0, 0]
    ∧ ∃ i : Nat,
      minimax 1 4 4 1 tTie 0
        = some ((if 0 % 2 = 1 then [(0 : Int)].foldl min 0
                 else [(0 : Int)].foldl max 0), (i : Int))
      ∧ ([0, 0] : List Int).getD i 0
          = (if 0 % 2 = 1 then [(0 : Int)].foldl min 0
             else [(0 : Int)].foldl max 0)
      ∧ (∀ k, k < i → ([0, 0] : List Int).getD k 0
          ≠ (if 0 % 2 = 1 then [(0 : Int)].foldl min 0
             else [(0 : Int)].foldl max 0))
      ∧ (∀ x ∈ ([0, 0] : List Int),
          if 0 % 2 = 1 then [(0 : Int)].foldl min 0 ≤ x
          else x ≤ [(0 : Int)].foldl max 0) :=
  ⟨rfl, C2_first_tied_child 1 4 4 1 0 ⟨[[0, 0, 0, 0]], 4, none⟩
    (.node ⟨[[1, 0, 0, 0]], 3, some (0, 0)⟩ [])
    [.node ⟨[[0, 1, 0, 0]], 3, some (0, 1)⟩ []] 0 [0] rfl⟩

/-- Claim C3, counterexample: the claim says evaluate(B, P) equals the
window-composition sum of spec section 4.3.  On the one-row board
[[1,1,0,0,0]] the code returns 5 (one streak of two pieces) while the
window table sums to 2 (one window with two player pieces and two
empties), so evaluate is not the window sum. -/
theorem C3_window_counterexample :
    evaluate 1 5 4 bPair15 1 = some 5
    ∧ evaluateWindowsSpec 1 5 4 bPair15 1 = 2
    ∧ evaluate 1 5 4 bPair15 1
        ≠ some (evaluateWindowsSpec 1 5 4 bPair15 1) := by
  refine ⟨rfl, rfl, by decide⟩

/-- Claim C3, amended: evaluate does not score overlapping n_to_win-sized
windows; it scores maximal streaks along the scan lines it walks.  For
every well-formed board with cells in range, n_to_win at least 4, and
player 1 or 2, evaluate returns the sum, over the lines the code scans
(each row left to right, each column top to bottom, and the four diagonal
walk families of the source, including the truncated bottom-up ones), of
the line's streak score: each maximal run of exactly 2, exactly 3, or at
least 4 consecutive pieces (run sizes past n_to_win being counted at
n_to_win) contributes plus 5, 25, 125 for the player and minus 5, 50, 200
for the opponent. -/
theorem C3_streak_scoring (rows cols n : Nat) (b : Board) (player : Nat)
    (wf : Wf rows cols b) (hr : 1 ≤ rows) (hc : 1 ≤ cols) (hn : 4 ≤ n)
    (hp : player = 1 ∨ player = 2)
    (hcw : ∀ rowl ∈ b, ∀ v ∈ rowl, v ≤ 2) :
    evaluate rows cols n b player
      = some (((evalLines rows cols).map (fun al =>
          lineScore n player (if player = 1 then 2 else 1)
            (lineCells b al))).sum) :=
  evaluate_runs rows cols n b player wf hr hc hn hp hcw

theorem C3_streak_scoring_witness :
    evaluate 1 5 4 bPair15 1
      = some (((evalLines 1 5).map (fun al =>
          lineScore 4 1 (if 1 = 1 then 2 else 1)
            (lineCells bPair15 al))).sum) :=
  C3_streak_scoring 1 5 4 bPair15 1 (by decide) (by decide) (by decide)
    (by decide) (Or.inl rfl) (by decide)

/-- Claim C4: the claim says the diagonal win check reports a win exactly
when an n_to_win diagonal run exists, for every configuration, with
bounds derived generically from n_to_win.  The bottom-up row bound
n_rows - n_to_win + 1 and the hardcoded +3 offsets make this false away
from the 6-row default: on a 7x7 board with a down-left four-run anchored
at row 3, the code misses the win that the generic windowed detector
reports. -/
theorem C4_diagonal_hardcode_bug :
    is_diagonal_win 7 7 4 bDiag77 1 = some false
    ∧ diagWinSpec 7 7 4 bDiag77 1 = true := by
  refine ⟨rfl, by decide⟩

/-- Claim C5, counterexample: the claim says win detection is total for
every configuration.  With n_to_win = 3 on a 4x4 board the hardcoded +3
offsets of is_diagonal_win index row 4 of a 4-row board, an IndexError:
the call returns no result even on the empty board. -/
theorem C5_partial_counterexample :
    is_diagonal_win 4 4 3 bEmpty44 1 = none := rfl

/-- Claim C5, amended: with the diagonal offsets hardcoded to a run
length of 4, totality holds only at n_to_win = 4 and on boards of at
least 3 rows.  There, for every well-formed board whose cells are pieces
or empty and every in-bounds last-move cell, each of is_horizontal_win,
is_vertical_win, is_diagonal_win and is_winning_move returns a defined
boolean and evaluate (for player 1 or 2) returns a defined score: every
board index these functions access is within numpy bounds. -/
theorem C5_default_runlength_total (rows cols : Nat) (b : Board)
    (player : Nat) (row col : Int)
    (wf : Wf rows cols b) (h3 : 3 ≤ rows) (hc : 1 ≤ cols)
    (hrow0 : 0 ≤ row) (hrow1 : row < (rows : Int))
    (hcol0 : 0 ≤ col) (hcol1 : col < (cols : Int))
    (hp : player = 1 ∨ player = 2)
    (hcw : ∀ rowl ∈ b, ∀ v ∈ rowl, v ≤ 2) :
    (∃ t, is_horizontal_win cols 4 b row player = some t)
    ∧ (∃ t, is_vertical_win rows 4 b col player = some t)
    ∧ (∃ t, is_diagonal_win rows cols 4 b player = some t)
    ∧ (∃ t, is_winning_move rows cols 4 b row col player = some t)
    ∧ (∃ s, evaluate rows cols 4 b player = some s) :=
  ⟨@is_horizontal_win_some rows cols b player wf row hrow0 hrow1,
   @is_vertical_win_some rows cols b player wf col hcol0 hcol1,
   @is_diagonal_win_some rows cols b player wf h3,
   is_winning_move_some wf h3 hrow0 hrow1 hcol0 hcol1,
   ⟨_, evaluate_runs rows cols 4 b player wf (by omega) hc (by omega)
      hp hcw⟩⟩

theorem C5_default_runlength_total_witness :
    (∃ t, is_horizontal_win 4 4 bEmpty44 0 1 = some t)
    ∧ (∃ t, is_vertical_win 4 4 bEmpty44 0 1 = some t)
    ∧ (∃ t, is_diagonal_win 4 4 4 bEmpty44 1 = some t)
    ∧ (∃ t, is_winning_move 4 4 4 bEmpty44 0 0 1 = some t)
    ∧ (∃ s, evaluate 4 4 4 bEmpty44 1 = some s) :=
  C5_default_runlength_total 4 4 bEmpty44 1 0 0 (by decide) (by decide)
    (by decide) (by decide) (by decide) (by decide) (by decide)
    (Or.inl rfl) (by decide)

/-- Claim C7, counterexample: the claim says the last-move win check
agrees with a full-board scan on every board, player, and cell that could
have been the last move.  On a 7-row board the bottom-up diagonal loop of
is_diagonal_win anchors only at rows n_rows - n_to_win + 1 and below, so
a down-left diagonal finished at (3,0) is missed: the position respects
gravity, the cell holds the player's piece, removing it leaves no run of
four for either player, yet the last-move check says no win while the
full scan says win. -/
theorem C7_last_move_counterexample :
    Wf 7 7 bLast77 ∧ Gravity 7 7 bLast77 ∧ cellD bLast77 3 0 = 1
    ∧ hasWonFull 7 7 4 (setCell bLast77 3 0 0) 1 = false
    ∧ hasWonFull 7 7 4 (setCell bLast77 3 0 0) 2 = false
    ∧ hasWonFull 7 7 4 bLast77 1 = true
    ∧ is_winning_move 7 7 4 bLast77 3 0 1 = some false := by
  refine ⟨by decide, by decide, rfl, by decide, by decide, by decide, rfl⟩

/-- Claim C7, amended: on boards with exactly 6 rows (the default
configuration; any column count) the last-move check does agree with the
full-board scan.  For every well-formed 6-row board, every player, and
every in-bounds cell whose removal leaves no full-scan win for that
player (as holds for the cell that received the last move of a live
game), is_winning_move at that cell returns precisely the full-board
scan's verdict. -/
theorem C7_last_move_agreement (cols : Nat) (b : Board) (p : Nat)
    (row col : Int) (wf : Wf 6 cols b)
    (hr0 : 0 ≤ row) (hr1 : row < 6) (hc0 : 0 ≤ col) (hc1 : col < (cols : Int))
    (herase : hasWonFull 6 cols 4 (setCell b row.toNat col.toNat 0) p
      = false) :
    is_winning_move 6 cols 4 b row col p
      = some (hasWonFull 6 cols 4 b p) := by
  have hrn : row.toNat < 6 := by omega
  have hcn : col.toNat < cols := by omega
  have hrow : ((row.toNat : Nat) : Int) = row := by omega
  have hcol : ((col.toNat : Nat) : Int) = col := by omega
  obtain ⟨d, hd⟩ := @is_diagonal_win_some 6 cols b p wf (by omega)
  have hH := @is_horizontal_win_eval 6 cols b p wf row.toNat hrn
  have hV := @is_vertical_win_eval 6 cols b p wf col.toNat hcn
  rw [← hrow, ← hcol]
  rw [is_winning_move_eval hH hV hd]
  refine congrArg some ?_
  cases hwon : hasWonFull 6 cols 4 b p with
  | false =>
    have hbf : (scanAux p 4
        ((List.range cols).map (fun c => cellD b row.toNat c)) 0 == 4)
        = false := by
      cases hb2 : (scanAux p 4
          ((List.range cols).map (fun c => cellD b row.toNat c)) 0 == 4) with
      | false => rfl
      | true =>
        exfalso
        have hline := (scanAux_eq_n_iff (by omega) _).mp (beq_iff_eq.mp hb2)
        obtain ⟨c2, hc2, hall⟩ := hasWinLine_row_iff.mp hline
        have h2 := hasWonFull_of_winH hrn (by omega) hc2 hall
        rw [h2] at hwon
        exact Bool.noConfusion hwon
    have hvf : (decide (4 ≤ scanAux p 4
        ((List.range 6).map (fun r => cellD b r col.toNat)) 0)) = false := by
      cases hv2 : (decide (4 ≤ scanAux p 4
          ((List.range 6).map (fun r => cellD b r col.toNat)) 0)) with
      | false => rfl
      | true =>
        exfalso
        have h4 := of_decide_eq_true hv2
        have hle := @scanAux_le p 4
          ((List.range 6).map (fun r => cellD b r col.toNat)) 0 (by omega)
        have heq : scanAux p 4
            ((List.range 6).map (fun r => cellD b r col.toNat)) 0 = 4 := by
          omega
        have hline := (scanAux_eq_n_iff (by omega) _).mp heq
        obtain ⟨r2, hr2, hall⟩ := hasWinLine_col_iff.mp hline
        have h2 := hasWonFull_of_winV (by omega) hcn hr2 hall
        rw [h2] at hwon
        exact Bool.noConfusion hwon
    have hdf : d = false := by
      cases d with
      | false => rfl
      | true =>
        exfalso
        have h2 := hasWonFull_of_diag ((is_diagonal_win_6_iff wf).mp hd)
        rw [h2] at hwon
        exact Bool.noConfusion hwon
    rw [hbf, hvf, hdf]
    rfl
  | true =>
    rcases hasWonFull_cases hwon with ⟨a, ha1, ha2, ha3, hall⟩
      | ⟨a, ha1, ha2, ha3, hall⟩ | hdiag
    · have herasedW : winAllP (setCell b row.toNat col.toNat 0) p
          (winH a.1 a.2 4) = false := by
        cases hw : winAllP (setCell b row.toNat col.toNat 0) p
            (winH a.1 a.2 4) with
        | false => rfl
        | true =>
          exfalso
          have h2 := hasWonFull_of_winH ha1 ha2 ha3 hw
          rw [h2] at herase
          exact Bool.noConfusion herase
      have hmem := winAll_not_erased hall herasedW
      have hrow_eq : a.1 = row.toNat := by
        unfold winH at hmem
        rw [List.mem_map] at hmem
        obtain ⟨j, hj, hj2⟩ := hmem
        rw [Prod.mk.injEq] at hj2
        exact hj2.1
      have hline : hasWinLine p 4
          ((List.range cols).map (fun c => cellD b row.toNat c)) := by
        rw [← hrow_eq]
        exact hasWinLine_row_iff.mpr ⟨a.2, ha3, hall⟩
      have hb : (scanAux p 4
          ((List.range cols).map (fun c => cellD b row.toNat c)) 0 == 4)
          = true := by
        rw [beq_iff_eq]
        exact (scanAux_eq_n_iff (by omega) _).mpr hline
      rw [hb]
      rfl
    · have herasedW : winAllP (setCell b row.toNat col.toNat 0) p
          (winV a.1 a.2 4) = false := by
        cases hw : winAllP (setCell b row.toNat col.toNat 0) p
            (winV a.1 a.2 4) with
        | false => rfl
        | true =>
          exfalso
          have h2 := hasWonFull_of_winV ha1 ha2 ha3 hw
          rw [h2] at herase
          exact Bool.noConfusion herase
      have hmem := winAll_not_erased hall herasedW
      have hcol_eq : a.2 = col.toNat := by
        unfold winV at hmem
        rw [List.mem_map] at hmem
        obtain ⟨j, hj, hj2⟩ := hmem
        rw [Prod.mk.injEq] at hj2
        exact hj2.2
      have hline : hasWinLine p 4
          ((List.range 6).map (fun r => cellD b r col.toNat)) := by
        rw [← hcol_eq]
        exact hasWinLine_col_iff.mpr ⟨a.1, ha3, hall⟩
      have hv : (decide (4 ≤ scanAux p 4
          ((List.range 6).map (fun r => cellD b r col.toNat)) 0)) = true := by
        rw [decide_eq_true_iff]
        have h2 := (scanAux_eq_n_iff (by omega) _).mpr hline
        omega
      rw [hv]
      simp
    · have h2 : is_diagonal_win 6 cols 4 b p = some true :=
        (is_diagonal_win_6_iff wf).mpr hdiag
      rw [h2] at hd
      have hdt : d = true := (Option.some_inj.mp hd).symm
      rw [hdt]
      simp

theorem C7_last_move_agreement_witness :
    is_winning_move 6 7 4 bAnti67 3 0 1
      = some (hasWonFull 6 7 4 bAnti67 1) :=
  C7_last_move_agreement 7 bAnti67 1 3 0 (by decide) (by decide) (by decide)
    (by decide) (by decide) (by decide)

/-- Claim C6, counterexample: the claim says a move request on a board
with no expandable children never raises.  On the full 6x7 draw board
with zero open positions, ai_move indexes the empty root child list with
-1 (an IndexError) and produces no move. -/
theorem C6_full_board_error_counterexample :
    ai_move 6 7 4 1 bFull67 0 = none := rfl

/-- Claim C6, amended: the search itself does fall back to static
evaluation at a node with zero children (minimax on a childless node
returns the evaluation of that node with index -1 and never fails on its
own), but a move request on a board with zero open positions is not
recovered: ai_move fails for every board when n_pos_open is 0, because it
indexes the empty root child list. -/
theorem C6_leaf_fallback_root_error (rows cols n sp depth : Nat)
    (st : StateL) (board : Board) :
    minimax rows cols n sp (.node st []) depth
      = (evaluate rows cols n st.positions sp).map (fun v => (v, -1))
    ∧ ai_move rows cols n sp board 0 = none := by
  constructor
  · simp [minimax]
  · have hg : generate_tree rows cols ⟨board, 0, none⟩ sp 5
        = .node ⟨board, 0, none⟩ [] := by
      simp [generate_tree, gen_states]
    show (minimax rows cols n sp
        (generate_tree rows cols ⟨board, 0, none⟩ sp 5) 0).bind (fun vi =>
          (pyGet? (generate_tree rows cols ⟨board, 0, none⟩ sp 5).children
            vi.2).bind (fun ch => ch.state.move)) = none
    rw [hg]
    cases he : evaluate rows cols n board sp <;>
      simp [minimax, he, GTree.children, pyGet?]

/-- Claim C9: calling ai_move leaves every cell of the caller board
unchanged.  In the heap model of the numpy arrays, the agent copies the
caller array into a fresh root snapshot (set_state), every child state
copies its parent array before its single in-place write, and minimax
only reads, so the heap cell holding the caller board still holds the
same array after the whole move request. -/
theorem C9_ai_move_frame (rows cols n sp : Nat) (h : Heap)
    (callerRef nOpen : Nat) (board : Board)
    (hc : h.get? callerRef = some board) :
    (ai_moveH rows cols n sp h callerRef nOpen).1.get? callerRef
      = some board := by
  have hlen : callerRef < h.length := by
    by_contra hnot
    push_neg at hnot
    rw [List.get?_eq_none.mpr hnot] at hc
    exact Option.noConfusion hc
  have g1 : HeapGrows h (set_stateH h callerRef).1 :=
    heapAlloc_grows h (hread h callerRef)
  have g2 := generate_treeH_grows rows cols 5 (set_stateH h callerRef).1
    ⟨(set_stateH h callerRef).2, nOpen, none⟩ sp
  have g := heapGrows_trans g1 g2
  have : (ai_moveH rows cols n sp h callerRef nOpen).1
      = (generate_treeH rows cols (set_stateH h callerRef).1
          ⟨(set_stateH h callerRef).2, nOpen, none⟩ sp 5).1 := rfl
  rw [this, g.2 callerRef hlen, hc]

/-- Claim C9, witness: the frame theorem applied to a one-cell heap
holding a one-row, two-column empty board. -/
theorem C9_ai_move_frame_witness :
    ([[[0, 0]]] : Heap).get? 0 = some [[0, 0]]
    ∧ (ai_moveH 1 2 4 1 [[[0, 0]]] 0 2).1.get? 0 = some [[0, 0]] :=
  ⟨rfl, C9_ai_move_frame 1 2 4 1 [[[0, 0]]] 0 2 [[0, 0]] rfl⟩

/-- Claim C10: on a board satisfying the gravity invariant, each column
has at most one row where is_valid_move holds, that row is the lowest
empty row of the column (its cell is empty and every row below it is
occupied), and gen_states produces exactly one successor per non-full
column, hence at most n_cols successors, each obtained by one
gravity-respecting drop. -/
theorem C10_gravity_unique_drop (rows cols : Nat) (b : Board) (player : Nat)
    (st : StateL) (wf : Wf rows cols b) (grav : Gravity rows cols b)
    (hst : st.positions = b) (hopen : st.n_pos_open ≠ 0) :
    (∀ c r1 r2 : Int, is_valid_move rows cols b r1 c = true →
        is_valid_move rows cols b r2 c = true → r1 = r2)
    ∧ (∀ r c : Int, is_valid_move rows cols b r c = true →
        cellD b r.toNat c.toNat = 0
        ∧ ∀ r' : Nat, r.toNat < r' → r' < rows → cellD b r' c.toNat ≠ 0)
    ∧ ∃ l, gen_states rows cols st player = some l
        ∧ l.length = ((List.range cols).filter (colNonFull rows b)).length
        ∧ l.length ≤ cols
        ∧ ∀ s ∈ l, ∃ (rn cn : Nat), rn < rows ∧ cn < cols
            ∧ is_valid_move rows cols b (rn : Int) (cn : Int) = true
            ∧ s = childState st rn cn player := by
  refine ⟨fun c r1 r2 v1 v2 => valid_unique wf grav c r1 r2 v1 v2, ?_, ?_⟩
  · intro r c hv
    obtain ⟨rn, cn, hr, hc, hrn, hcn, hcell, hsup⟩ := is_valid_move_spec wf hv
    have hrt : r.toNat = rn := by omega
    have hct : c.toNat = cn := by omega
    rw [hrt, hct]
    refine ⟨hcell, ?_⟩
    intro r' h1 h2 hcell'
    rcases hsup with hs | hs
    · omega
    · rcases Nat.lt_or_ge (rn + 1) r' with hlt | hge
      · exact hs.2 (grav r' h2 cn hcn hcell' (rn + 1) hlt)
      · have : rn + 1 = r' := by omega
        rw [this] at hs
        exact hs.2 hcell'
  · have hcount : ((List.range rows).flatMap (fun (r : Nat) =>
        (List.range cols).filterMap (fun (c : Nat) =>
          if is_valid_move rows cols b (r : Int) (c : Int) then
            some (childState st r c player) else none))).length
        = ((List.range cols).filter (colNonFull rows b)).length := by
      rw [length_flatMap_sum]
      have hmap : ((List.range rows).map (fun (r : Nat) =>
          ((List.range cols).filterMap (fun (c : Nat) =>
            if is_valid_move rows cols b (r : Int) (c : Int) then
              some (childState st r c player) else none)).length))
          = (List.range rows).map (fun (r : Nat) => (List.range cols).countP
              (fun (c : Nat) => is_valid_move rows cols b (r : Int) (c : Int))) := by
        apply List.map_congr_left
        intro r _
        rw [length_filterMap_countP]
        apply List.countP_congr
        intro c _
        by_cases h : is_valid_move rows cols b (r : Int) (c : Int) = true <;>
          simp [h]
      rw [hmap, map_range_sum]
      have hinner : ∀ r : Nat, (List.range cols).countP
          (fun (c : Nat) => is_valid_move rows cols b (r : Int) (c : Int))
          = ∑ c in Finset.range cols,
              (if is_valid_move rows cols b (r : Int) (c : Int) then 1 else 0) :=
        fun r => countP_range_finset _ cols
      rw [Finset.sum_congr rfl (fun r _ => hinner r), Finset.sum_comm]
      have hcols : ∀ c ∈ Finset.range cols,
          (∑ r in Finset.range rows,
            (if is_valid_move rows cols b (r : Int) (c : Int) then 1 else 0))
          = (if colNonFull rows b c then 1 else 0) := by
        intro c hcm
        exact column_sum_one wf grav c (Finset.mem_range.mp hcm)
      rw [Finset.sum_congr rfl hcols, ← List.countP_eq_length_filter,
        countP_range_finset]
    refine ⟨(List.range rows).flatMap (fun (r : Nat) =>
      (List.range cols).filterMap (fun (c : Nat) =>
        if is_valid_move rows cols b (r : Int) (c : Int) then
          some (childState st r c player) else none)), ?_, hcount, ?_, ?_⟩
    · unfold gen_states
      rw [if_neg hopen, hst]
    · rw [hcount]
      calc ((List.range cols).filter (colNonFull rows b)).length
          ≤ (List.range cols).length := List.length_filter_le _ _
        _ = cols := List.length_range cols
    · intro s hs
      rw [List.mem_flatMap] at hs
      obtain ⟨r, hr, hs2⟩ := hs
      rw [List.mem_filterMap] at hs2
      obtain ⟨c, hcm, hfc⟩ := hs2
      by_cases hv : is_valid_move rows cols b (r : Int) (c : Int) = true
      · rw [if_pos hv] at hfc
        exact ⟨r, c, List.mem_range.mp hr, List.mem_range.mp hcm, hv,
          (Option.some.inj hfc).symm⟩
      · rw [if_neg hv] at hfc
        exact Option.noConfusion hfc

/-- Claim C10, witness: the theorem applied to the empty 2x2 board, which
satisfies gravity; its conclusion at that input. -/
theorem C10_gravity_unique_drop_witness :
    Gravity 2 2 [[0, 0], [0, 0]]
    ∧ ((∀ c r1 r2 : Int,
          is_valid_move 2 2 [[0, 0], [0, 0]] r1 c = true →
          is_valid_move 2 2 [[0, 0], [0, 0]] r2 c = true → r1 = r2)
    ∧ (∀ r c : Int, is_valid_move 2 2 [[0, 0], [0, 0]] r c = true →
        cellD [[0, 0], [0, 0]] r.toNat c.toNat = 0
        ∧ ∀ r' : Nat, r.toNat < r' → r' < 2 →
            cellD [[0, 0], [0, 0]] r' c.toNat ≠ 0)
    ∧ ∃ l, gen_states 2 2 ⟨[[0, 0], [0, 0]], 4, none⟩ 1 = some l
        ∧ l.length = ((List.range 2).filter
            (colNonFull 2 [[0, 0], [0, 0]])).length
        ∧ l.length ≤ 2
        ∧ ∀ s ∈ l, ∃ (rn cn : Nat), rn < 2 ∧ cn < 2
            ∧ is_valid_move 2 2 [[0, 0], [0, 0]] (rn : Int) (cn : Int) = true
            ∧ s = childState ⟨[[0, 0], [0, 0]], 4, none⟩ rn cn 1) :=
  ⟨by decide, C10_gravity_unique_drop 2 2 [[0, 0], [0, 0]] 1
    ⟨[[0, 0], [0, 0]], 4, none⟩ (by decide) (by decide) rfl (by decide)⟩

/-- Claim C8: the claim says mirroring a board left-right preserves the
magnitude of evaluate.  The bottom-up diagonal walks stop at the c > 0
bound and drop the column-0 cell of top-anchored diagonals, so the
down-left three-run (1,2),(2,1),(3,0) of bAnti67 is scanned as a streak
of two (score 5), while its mirror image, a down-right three-run, is
scanned whole as a streak of three (score 25); no win is present on
either board. -/
theorem C8_mirror_asymmetry_bug :
    evaluate 6 7 4 bAnti67 1 = some 5
    ∧ evaluate 6 7 4 (mirror bAnti67) 1 = some 25
    ∧ hasWonFull 6 7 4 bAnti67 1 = false
    ∧ hasWonFull 6 7 4 (mirror bAnti67) 1 = false := by
  refine ⟨rfl, rfl, by decide, by decide⟩

end C4
